import Mathlib

/-!
Shallow embedding of `griptape/chunkers/semantic_chunker.py` (class
`SemanticChunker`) and proofs about it.

Strings are modelled as Lean `String`/`List Char`; Python's `re.sub` calls in
`split_into_sentences` use only concrete patterns, which are embedded as
explicit left-to-right scanning substitutions (Python's `re.sub` finds the
leftmost match, tries alternatives in written order, replaces, and resumes
scanning right after the consumed text).  Floating point numbers are modelled
by an arbitrary linear ordered field with floor (instantiated at `ℚ` for
concrete evaluations); `np.sqrt`-like operations (inside `np.std` and
`np.linalg.norm`) are an explicit function parameter `sq`, instantiable by
`Real.sqrt` on `ℝ`.
-/

set_option linter.unusedSectionVars false

set_option allowUnsafeReducibility true in
attribute [semireducible] Rat.mul Rat.inv Rat.add Rat.sub Rat.ofScientific

/-- Decidable equality for `Except`, used to evaluate the model on concrete
inputs. -/
instance {ε β : Type*} [DecidableEq ε] [DecidableEq β] : DecidableEq (Except ε β) :=
  fun a b =>
    match a, b with
    | .ok x, .ok y =>
      if h : x = y then .isTrue (by rw [h]) else .isFalse fun hh => h (Except.ok.inj hh)
    | .error x, .error y =>
      if h : x = y then .isTrue (by rw [h]) else .isFalse fun hh => h (Except.error.inj hh)
    | .ok _, .error _ => .isFalse fun hh => Except.noConfusion hh
    | .error _, .ok _ => .isFalse fun hh => Except.noConfusion hh

namespace Griptape

/-- Python whitespace test (`\s` in patterns, `str.strip`), restricted to the
ASCII whitespace characters; all text handled by the claims is ASCII. -/
def pyIsSpace (c : Char) : Bool :=
  c = ' ' || c = '\t' || c = '\n' || c = '\r' || c = '\x0b' || c = '\x0c'

/-- Python `str.strip()`: drop leading and trailing whitespace. -/
def pyStrip (l : List Char) : List Char :=
  ((l.dropWhile pyIsSpace).reverse.dropWhile pyIsSpace).reverse

/-- Generic left-to-right scanning substitution: at each position try the
matcher `m`; on `some (rep, rest)` emit `rep` and resume at `rest` (the text
after the consumed match), otherwise keep the character and advance.  This is
`re.sub`'s semantics for the concrete patterns below.  `fuel` bounds the
number of steps; it is always called with the length of the text, which
suffices because every matcher consumes at least one character. -/
def scanSub (m : List Char → Option (List Char × List Char)) :
    ℕ → List Char → List Char
  | 0, l => l
  | _ + 1, [] => []
  | fuel + 1, c :: cs =>
    match m (c :: cs) with
    | some (rep, rest) => rep ++ scanSub m fuel rest
    | none => c :: scanSub m fuel cs

/-- Run a scanning substitution with adequate fuel. -/
def pySub (m : List Char → Option (List Char × List Char)) (l : List Char) :
    List Char :=
  scanSub m l.length l

/-- Python `str.replace(pat, rep)` (left-to-right, non-overlapping). -/
def pyReplace (pat rep : List Char) (l : List Char) : List Char :=
  pySub (fun s => if pat ≠ [] ∧ pat.isPrefixOf s then
    some (rep, s.drop pat.length) else none) l

/-- The `<prd>` sentinel protecting periods. -/
def prdTok : List Char := "<prd>".toList

/-- The `<stop>` sentinel marking sentence boundaries. -/
def stopTok : List Char := "<stop>".toList

/-- Try a list of (literal pattern, literal replacement) alternatives in
order, as a regex alternation of literals does. -/
def tryAlts (alts : List (List Char × List Char)) (l : List Char) :
    Option (List Char × List Char) :=
  alts.findSome? fun pr =>
    if pr.1.isPrefixOf l then some (pr.2, l.drop pr.1.length) else none

/-- `re.sub("(Mr|St|Mrs|Ms|Dr)[.]", "\\1<prd>", text)`. -/
def prefixesAlts : List (List Char × List Char) :=
  [("Mr.".toList, "Mr<prd>".toList), ("St.".toList, "St<prd>".toList),
   ("Mrs.".toList, "Mrs<prd>".toList), ("Ms.".toList, "Ms<prd>".toList),
   ("Dr.".toList, "Dr<prd>".toList)]

/-- `re.sub("[.](com|net|org|io|gov|edu|me)", "<prd>\\1", text)`. -/
def websitesAlts : List (List Char × List Char) :=
  [(".com".toList, "<prd>com".toList), (".net".toList, "<prd>net".toList),
   (".org".toList, "<prd>org".toList), (".io".toList, "<prd>io".toList),
   (".gov".toList, "<prd>gov".toList), (".edu".toList, "<prd>edu".toList),
   (".me".toList, "<prd>me".toList)]

/-- `re.sub("([0-9])[.]([0-9])", "\\1<prd>\\2", text)`. -/
def matchDigits : List Char → Option (List Char × List Char)
  | a :: '.' :: b :: rest =>
    if a.isDigit && b.isDigit then some (a :: prdTok ++ [b], rest) else none
  | _ => none

/-- `re.sub(r"\.{2,}", lambda m: "<prd>" * len(m.group(0)) + "<stop>", text)`:
a maximal run of at least two dots. -/
def matchMultiDots (l : List Char) : Option (List Char × List Char) :=
  let k := (l.takeWhile (fun c => c = '.')).length
  if 2 ≤ k then some ((List.replicate k prdTok).flatten ++ stopTok, l.drop k)
  else none

/-- `re.sub(r"\s([A-Za-z])[.] ", " \\1<prd> ", text)`. -/
def matchWsAlphaDot : List Char → Option (List Char × List Char)
  | w :: a :: '.' :: ' ' :: rest =>
    if pyIsSpace w && a.isAlpha then some (' ' :: a :: prdTok ++ [' '], rest)
    else none
  | _ => none

/-- The `starters` alternation, in the source's order; the `Bool` records
whether the alternative ends in `\s` (that whitespace character is part of
the match and of the captured group). -/
def startersAlts : List (List Char × Bool) :=
  [("Mr".toList, false), ("Mrs".toList, false), ("Ms".toList, false),
   ("Dr".toList, false), ("Prof".toList, false), ("Capt".toList, false),
   ("Cpt".toList, false), ("Lt".toList, false), ("He".toList, true),
   ("She".toList, true), ("It".toList, true), ("They".toList, true),
   ("Their".toList, true), ("Our".toList, true), ("We".toList, true),
   ("But".toList, true), ("However".toList, true), ("That".toList, true),
   ("This".toList, true), ("Wherever".toList, true)]

/-- Match one starter alternative. -/
def matchOneStarter (w : List Char) (needsWs : Bool) (l : List Char) :
    Option (List Char × List Char) :=
  if w.isPrefixOf l then
    if needsWs then
      match l.drop w.length with
      | c :: rest => if pyIsSpace c then some (w ++ [c], rest) else none
      | [] => none
    else some (w, l.drop w.length)
  else none

/-- Match the `starters` group (ordered alternation). -/
def matchStarter (l : List Char) : Option (List Char × List Char) :=
  startersAlts.findSome? fun pr => matchOneStarter pr.1 pr.2 l

/-- Match `([A-Z][.][A-Z][.](?:[A-Z][.])?)`.  The optional third pair is taken
greedily; backtracking into it can never help, because after two pairs the
pattern requires a space while the text continues with an uppercase letter. -/
def matchAcronym : List Char → Option (List Char × List Char)
  | a :: '.' :: b :: '.' :: rest =>
    if a.isUpper && b.isUpper then
      match rest with
      | c :: '.' :: rest2 =>
        if c.isUpper then some ([a, '.', b, '.', c, '.'], rest2)
        else some ([a, '.', b, '.'], rest)
      | _ => some ([a, '.', b, '.'], rest)
    else none
  | _ => none

/-- `re.sub(acronyms + " " + starters, "\\1<stop> \\2", text)`. -/
def matchAcrStarter (l : List Char) : Option (List Char × List Char) :=
  match matchAcronym l with
  | some (acr, r1) =>
    match r1 with
    | ' ' :: r2 =>
      match matchStarter r2 with
      | some (st, r3) => some (acr ++ stopTok ++ [' '] ++ st, r3)
      | none => none
    | _ => none
  | none => none

/-- `re.sub(alphabets + "[.]" + alphabets + "[.]" + alphabets + "[.]",
"\\1<prd>\\2<prd>\\3<prd>", text)`. -/
def matchThreeAlpha : List Char → Option (List Char × List Char)
  | a :: '.' :: b :: '.' :: c :: '.' :: rest =>
    if a.isAlpha && b.isAlpha && c.isAlpha then
      some ([a] ++ prdTok ++ [b] ++ prdTok ++ [c] ++ prdTok, rest)
    else none
  | _ => none

/-- `re.sub(alphabets + "[.]" + alphabets + "[.]", "\\1<prd>\\2<prd>", text)`. -/
def matchTwoAlpha : List Char → Option (List Char × List Char)
  | a :: '.' :: b :: '.' :: rest =>
    if a.isAlpha && b.isAlpha then
      some ([a] ++ prdTok ++ [b] ++ prdTok, rest)
    else none
  | _ => none

/-- Match the `suffixes` group `(Inc|Ltd|Jr|Sr|Co)`. -/
def matchSuffixTok (l : List Char) : Option (List Char × List Char) :=
  ["Inc".toList, "Ltd".toList, "Jr".toList, "Sr".toList, "Co".toList].findSome?
    fun w => if w.isPrefixOf l then some (w, l.drop w.length) else none

/-- `re.sub(" " + suffixes + "[.] " + starters, " \\1<stop> \\2", text)`. -/
def matchSuffixStarter : List Char → Option (List Char × List Char)
  | ' ' :: r1 =>
    match matchSuffixTok r1 with
    | some (suf, r2) =>
      match r2 with
      | '.' :: ' ' :: r3 =>
        match matchStarter r3 with
        | some (st, r4) => some (' ' :: suf ++ stopTok ++ [' '] ++ st, r4)
        | none => none
      | _ => none
    | none => none
  | _ => none

/-- `re.sub(" " + suffixes + "[.]", " \\1<prd>", text)`. -/
def matchSuffixDot : List Char → Option (List Char × List Char)
  | ' ' :: r1 =>
    match matchSuffixTok r1 with
    | some (suf, r2) =>
      match r2 with
      | '.' :: r3 => some (' ' :: suf ++ prdTok, r3)
      | _ => none
    | none => none
  | _ => none

/-- `re.sub(" " + alphabets + "[.]", " \\1<prd>", text)`. -/
def matchSpaceAlphaDot : List Char → Option (List Char × List Char)
  | ' ' :: a :: '.' :: rest =>
    if a.isAlpha then some (' ' :: a :: prdTok, rest) else none
  | _ => none

/-- Python `text.split("<stop>")` (keeps empty pieces, including around
adjacent separators).  Structural recursion over `fuel`, called with the
length of the text. -/
def splitStopsAux : ℕ → List Char → List (List Char)
  | 0, l => [l]
  | _ + 1, [] => [[]]
  | fuel + 1, c :: cs =>
    if stopTok.isPrefixOf (c :: cs) then
      [] :: splitStopsAux fuel ((c :: cs).drop stopTok.length)
    else (splitStopsAux fuel cs).modifyHead (c :: ·)

/-- Python `text.split("<stop>")`. -/
def splitStops (l : List Char) : List (List Char) :=
  splitStopsAux l.length l

/-- `if sentences and not sentences[-1]: sentences = sentences[:-1]` —
drop one trailing empty entry. -/
def dropTrailingEmptyPiece (xs : List (List Char)) : List (List Char) :=
  match xs.getLast? with
  | some [] => xs.dropLast
  | _ => xs

/-- `SemanticChunker.split_into_sentences`, stage by stage in the source's
order.  The `if "Ph.D" in text` / `if '"' in text` style guards in the source
only skip a replacement whose pattern is certainly absent, so they are
semantically equivalent to the unconditional replacement used here. -/
def split_into_sentences (text : String) : List String :=
  let t0 := ' ' :: text.toList ++ [' ', ' ']
  let t1 := t0.map fun c => if c = '\n' then ' ' else c
  let t2 := pySub (tryAlts prefixesAlts) t1
  let t3 := pySub (tryAlts websitesAlts) t2
  let t4 := pySub matchDigits t3
  let t5 := pySub matchMultiDots t4
  let t6 := pyReplace "Ph.D.".toList "Ph<prd>D<prd>".toList t5
  let t7 := pySub matchWsAlphaDot t6
  let t8 := pySub matchAcrStarter t7
  let t9 := pySub matchThreeAlpha t8
  let t10 := pySub matchTwoAlpha t9
  let t11 := pySub matchSuffixStarter t10
  let t12 := pySub matchSuffixDot t11
  let t13 := pySub matchSpaceAlphaDot t12
  let t14 := pyReplace ".”".toList "”.".toList t13
  let t15 := pyReplace ".\"".toList "\".".toList t14
  let t16 := pyReplace "!\"".toList "\"!".toList t15
  let t17 := pyReplace "?\"".toList "\"?".toList t16
  let t18 := pyReplace ".".toList ".<stop>".toList t17
  let t19 := pyReplace "?".toList "?<stop>".toList t18
  let t20 := pyReplace "!".toList "!<stop>".toList t19
  let t21 := pyReplace prdTok ".".toList t20
  let pieces := splitStops t21
  let stripped := pieces.map pyStrip
  (dropTrailingEmptyPiece stripped).map fun l => String.mk l

/-! ## The numeric pipeline

`np.percentile`, `np.mean`, `np.std`, `np.dot` and `np.linalg.norm` are
embedded over an arbitrary linear ordered field with floor.  The square root
used inside `np.std` and `np.linalg.norm` is an explicit parameter `sq`
(instantiable by `Real.sqrt` over `ℝ`; the claims below never depend on any
property of `sq` beyond, where stated, its nonnegativity). -/

/-- One sentence record (`SemanticChunker.Sentence`): the raw sentence, its
index, the windowed `combined_sentence`, the embedding stored on that
combined text by `generate_embedding`, and `distance_to_next`. -/
structure Sentence (α : Type*) where
  sentence : String
  index : ℕ
  combined_sentence : Option String
  combined_embedding : Option (List α)
  distance_to_next : Option α

/-- Placeholder record used only as the (never reached) default of list
indexing. -/
def Sentence.dflt (α : Type*) : Sentence α := ⟨"", 0, none, none, none⟩

/-- Configuration of `SemanticChunker`: the injected embedding driver is a
function from the text to its embedding vector.  `max_tokens` is never read
by `try_chunk` and is omitted. -/
structure SemanticChunker (α : Type*) where
  embedding_driver : String → List α
  breakpoint_threshold_type : String
  breakpoint_threshold_amount : α

/-- `SemanticChunker.BREAKPOINT_DEFAULTS` as a lookup (a missing key is a
Python `KeyError`, hence `Option`). -/
def BREAKPOINT_DEFAULTS (α : Type*) [LinearOrderedField α] (t : String) :
    Option α :=
  if t = "percentile" then some 95
  else if t = "standard_deviation" then some 3
  else if t = "interquartile" then some (3 / 2)
  else none

/-- Constructing a `SemanticChunker`: when no `breakpoint_threshold_amount`
is supplied, the attrs factory default `BREAKPOINT_DEFAULTS[breakpoint_threshold_type]`
is evaluated, which raises `KeyError` on an unknown type. -/
def mkSemanticChunker {α : Type*} [LinearOrderedField α]
    (embed : String → List α) (ttype : String) (amount : Option α) :
    Except String (SemanticChunker α) :=
  match amount with
  | some a => .ok ⟨embed, ttype, a⟩
  | none =>
    match BREAKPOINT_DEFAULTS α ttype with
    | some a => .ok ⟨embed, ttype, a⟩
    | none => .error ("KeyError: " ++ ttype)

variable {α : Type*} [LinearOrderedField α] [FloorRing α]

/-- `np.mean` (the empty case, `nan` in numpy, is never compared against in
the code: it can only arise with an empty distance list, in which case no
comparison with the threshold is ever evaluated). -/
def npMean (l : List α) : α := l.sum / l.length

/-- The value of `np.percentile(l, q)` (default linear interpolation) for a
non-empty `l` and `0 ≤ q ≤ 100`: with `s` the ascending sort of `l` and
`h = (n-1)·q/100`, the value is `s[⌊h⌋] + (h - ⌊h⌋)·(s[⌊h⌋+1] - s[⌊h⌋])`. -/
def percentileVal (l : List α) (q : α) : α :=
  let s := l.insertionSort (· ≤ ·)
  let h : α := (l.length - 1 : ℕ) * q / 100
  let i : ℕ := (Int.floor h).toNat
  let lo := s.getD i 0
  let hi := s.getD (i + 1) lo
  lo + (h - i) * (hi - lo)

/-- `np.percentile(l, q)`: raises `IndexError` on an empty array and
`ValueError` when `q` is outside `[0, 100]`. -/
def npPercentile (l : List α) (q : α) : Except String α :=
  if l = [] then .error "IndexError: cannot do a non-empty take from an empty axes."
  else if q < 0 ∨ 100 < q then .error "ValueError: Percentiles must be in the range [0, 100]"
  else .ok (percentileVal l q)

/-- `np.std`: square root of the mean squared deviation from the mean. -/
def npStd (sq : α → α) (l : List α) : α :=
  sq (npMean (l.map fun x => (x - npMean l) ^ 2))

/-- `np.dot` on equal-length vectors. -/
def npDot (v w : List α) : α := ((v.zip w).map fun p => p.1 * p.2).sum

/-- `np.linalg.norm`: Euclidean norm. -/
def npNorm (sq : α → α) (v : List α) : α := sq ((v.map fun x => x ^ 2).sum)

/-- `SemanticChunker._text_to_sentences`. -/
def text_to_sentences (text : String) : List (Sentence α) :=
  (split_into_sentences text).enum.map fun p => ⟨p.2, p.1, none, none, none⟩

/-- Integer range `range(lo, hi)` (empty when `hi ≤ lo`). -/
def intRange (lo hi : ℤ) : List ℤ :=
  (List.range (hi - lo).toNat).map fun k : ℕ => lo + (k : ℤ)

/-- Concatenation of a list of strings: the `combined_sentence += ...`
accumulation loop (written as a right fold; `++` is associative with `""` as
identity, so this coincides with the source's left-to-right accumulation). -/
def concatAll : List String → String
  | [] => ""
  | x :: xs => x ++ concatAll xs

/-- The combined text built by the loops of `SemanticChunker._combine_sentences`
for the sentence at index `i`: the sentences at `range(i - buffer_size, i)`
passing the `j >= 0` check, each followed by a space; the sentence itself; and
the sentences at `range(i + 1, i + 1 + buffer_size)` passing the
`j < len(sentences)` check, each preceded by a space. -/
def combinedText (ss : List (Sentence α)) (buffer_size : ℕ) (i : ℕ) : String :=
  let before := ((intRange ((i : ℤ) - buffer_size) i).filter fun j => 0 ≤ j).map
    fun j => (ss.getD j.toNat (Sentence.dflt α)).sentence ++ " "
  let after := ((intRange ((i : ℤ) + 1) ((i : ℤ) + 1 + buffer_size)).filter
      fun j => j < (ss.length : ℤ)).map
    fun j => " " ++ (ss.getD j.toNat (Sentence.dflt α)).sentence
  concatAll before ++ (ss.getD i (Sentence.dflt α)).sentence ++ concatAll after

/-- `SemanticChunker._combine_sentences`.  The source mutates the records in
place while iterating, but `combined_sentence` writes are never read back by
the loops (they read only `.sentence`), so the snapshot semantics used here
coincide. -/
def combine_sentences (ss : List (Sentence α)) (buffer_size : ℕ) :
    List (Sentence α) :=
  ss.mapIdx fun i s => { s with combined_sentence := some (combinedText ss buffer_size i) }

/-- `SemanticChunker._embed_sentences`: store the driver's embedding of each
combined text (always present when called from `try_chunk`). -/
def embed_sentences (c : SemanticChunker α) (ss : List (Sentence α)) :
    List (Sentence α) :=
  ss.map fun s =>
    { s with combined_embedding := some (c.embedding_driver (s.combined_sentence.getD "")) }

/-- `SemanticChunker._calculate_cosine_distances`: for each adjacent pair,
`1 - dot/(norm·norm)`; returns the distance list and the sentences with
`distance_to_next` set. -/
def calculate_cosine_distances (sq : α → α) (ss : List (Sentence α)) :
    List α × List (Sentence α) :=
  let distances := (List.range (ss.length - 1)).map fun i =>
    let ec := (ss.getD i (Sentence.dflt α)).combined_embedding.getD []
    let en := (ss.getD (i + 1) (Sentence.dflt α)).combined_embedding.getD []
    1 - npDot ec en / (npNorm sq ec * npNorm sq en)
  (distances,
    ss.mapIdx fun i s =>
      if i < ss.length - 1 then { s with distance_to_next := some (distances.getD i 0) }
      else s)

/-- `SemanticChunker._calculate_breakpoint_threshold`, with the unknown-type
`ValueError` as the error case. -/
def calculate_breakpoint_threshold (c : SemanticChunker α) (sq : α → α)
    (distances : List α) : Except String α :=
  if c.breakpoint_threshold_type = "percentile" then
    npPercentile distances c.breakpoint_threshold_amount
  else if c.breakpoint_threshold_type = "standard_deviation" then
    .ok (npMean distances + c.breakpoint_threshold_amount * npStd sq distances)
  else if c.breakpoint_threshold_type = "interquartile" then
    match npPercentile distances 25, npPercentile distances 75 with
    | .ok q1, .ok q3 => .ok (npMean distances + c.breakpoint_threshold_amount * (q3 - q1))
    | .error e, _ => .error e
    | _, .error e => .error e
  else
    .error ("Got unexpected `breakpoint_threshold_type`: " ++ c.breakpoint_threshold_type)

/-- Python `" ".join`. -/
def spaceJoin : List String → String
  | [] => ""
  | [x] => x
  | x :: xs => x ++ " " ++ spaceJoin xs

/-- The chunk-building loop of `SemanticChunker._combine_sentences_to_chunks`:
for each breakpoint index, emit the space-joined slice
`sentences[start_index : index + 1]` and continue at `index + 1`; finally, if
`start_index < len(sentences)`, emit the remaining slice. -/
def chunkGroups (ss : List (Sentence α)) : List ℕ → ℕ → List String
  | [], start_index =>
    if start_index < ss.length then
      [spaceJoin ((ss.drop start_index).map (·.sentence))]
    else []
  | index :: rest, start_index =>
    spaceJoin (((ss.drop start_index).take (index + 1 - start_index)).map (·.sentence)) ::
      chunkGroups ss rest (index + 1)

/-- `[i for i, x in enumerate(distances) if x > breakpoint_distance_threshold]`. -/
def indicesAboveThreshold (t : α) (distances : List α) : List ℕ :=
  (distances.enum.filter fun p => t < p.2).map Prod.fst

/-- `SemanticChunker._combine_sentences_to_chunks`. -/
def combine_sentences_to_chunks (c : SemanticChunker α) (sq : α → α)
    (distances : List α) (ss : List (Sentence α)) : Except String (List String) :=
  match calculate_breakpoint_threshold c sq distances with
  | .error e => .error e
  | .ok t => .ok (chunkGroups ss (indicesAboveThreshold t distances) 0)

/-- `SemanticChunker.try_chunk`, additionally reporting the list of texts the
embedding driver was called on.  In the source, `_embed_sentences` issues one
driver call per sentence window and runs to completion before
`_combine_sentences_to_chunks` can raise, so the call list is exactly the
combined texts, in index order, whether or not the final stage fails.
`_combine_sentences` is called without `buffer_size`, so its default `1`
applies. -/
def try_chunk_with_calls (c : SemanticChunker α) (sq : α → α) (text : String) :
    Except String (List String) × List String :=
  let sentences := text_to_sentences (α := α) text
  let combined := combine_sentences sentences 1
  let embedded := embed_sentences c combined
  let ds := calculate_cosine_distances sq embedded
  (combine_sentences_to_chunks c sq ds.1 ds.2,
    combined.map fun s => s.combined_sentence.getD "")

/-- `SemanticChunker.try_chunk`. -/
def try_chunk (c : SemanticChunker α) (sq : α → α) (text : String) :
    Except String (List String) :=
  (try_chunk_with_calls c sq text).1

/-- The distance list computed inside `try_chunk` (the first component of
`_calculate_cosine_distances`). -/
def try_chunk_distances (c : SemanticChunker α) (sq : α → α) (text : String) :
    List α :=
  (calculate_cosine_distances sq
    (embed_sentences c (combine_sentences (text_to_sentences (α := α) text) 1))).1

/-! ## Definitions taken from the spec's words (for refinement claims) -/

/-- Modelled from the spec: the chunk assembly of §4.5 — given ascending
breakpoint indices, chunk `j` is the space-joined sentences
`[start_j, b_j]` with `start_0 = 0` and `start_{j+1} = b_j + 1`, and a final
chunk covers `[b_k + 1, N - 1]` if non-empty. -/
def assembleSpec (names : List String) : List ℕ → ℕ → List String
  | [], start =>
    if start < names.length then [spaceJoin (names.drop start)] else []
  | b :: rest, start =>
    spaceJoin ((names.drop start).take (b + 1 - start)) :: assembleSpec names rest (b + 1)

/-- Modelled from the spec: the threshold formulas of §4.5 — `percentile`:
the P-th percentile of the distances with P = amount; `standard_deviation`:
`mean + amount * stddev`; `interquartile`: `mean + amount * (Q3 - Q1)` with
Q1, Q3 the 25th/75th percentiles; anything else is a configuration error. -/
def specBreakpointThreshold (sq : α → α) (method : String) (amount : α)
    (d : List α) : Option α :=
  if method = "percentile" then some (percentileVal d amount)
  else if method = "standard_deviation" then some (npMean d + amount * npStd sq d)
  else if method = "interquartile" then
    some (npMean d + amount * (percentileVal d 75 - percentileVal d 25))
  else none

/-- A concrete chunker over `ℚ` used for evaluating the model: the stub
embedding driver maps a text to the one-dimensional vector holding its
length, the threshold configuration is the default
(`percentile`, amount `95`). -/
def chunkerW : SemanticChunker ℚ :=
  ⟨fun s => [(s.length : ℚ)], "percentile", 95⟩

/-- A concrete chunker over `ℚ` with an unknown threshold type and an
explicitly supplied amount. -/
def chunkerBad : SemanticChunker ℚ :=
  ⟨fun s => [(s.length : ℚ)], "median", 5⟩

/-- A concrete sentence list over `ℚ` used for evaluating the model. -/
def sentencesW : List (Sentence ℚ) :=
  [⟨"a", 0, none, none, none⟩, ⟨"b", 1, none, none, none⟩,
   ⟨"c", 2, none, none, none⟩, ⟨"d", 3, none, none, none⟩]

/-! ## Helper lemmas: space-joining and chunk assembly -/

@[simp] lemma spaceJoin_singleton (x : String) : spaceJoin [x] = x := rfl

lemma spaceJoin_cons (x : String) (l : List String) (h : l ≠ []) :
    spaceJoin (x :: l) = x ++ " " ++ spaceJoin l := by
  cases l with
  | nil => exact absurd rfl h
  | cons y ys => rfl

lemma spaceJoin_append (l1 l2 : List String) (h1 : l1 ≠ []) (h2 : l2 ≠ []) :
    spaceJoin (l1 ++ l2) = spaceJoin l1 ++ " " ++ spaceJoin l2 := by
  induction l1 with
  | nil => exact absurd rfl h1
  | cons x xs ih =>
    cases xs with
    | nil => simp [spaceJoin, spaceJoin_cons x l2 h2]
    | cons y ys =>
      rw [List.cons_append, spaceJoin_cons x _ (by simp),
        spaceJoin_cons x (y :: ys) (by simp), ih (by simp)]
      simp [String.append_assoc]

lemma length_chunkGroups (ss : List (Sentence α)) (idxs : List ℕ) :
    ∀ start, start < ss.length → (∀ i ∈ idxs, i + 1 < ss.length) →
      (chunkGroups ss idxs start).length = idxs.length + 1 := by
  induction idxs with
  | nil => intro start hstart _; simp [chunkGroups, hstart]
  | cons b rest ih =>
    intro start _ hmem
    have hb : b + 1 < ss.length := hmem b (.head _)
    simp [chunkGroups, ih (b + 1) hb fun i hi => hmem i (.tail _ hi)]

lemma chunkGroups_ne_nil (ss : List (Sentence α)) (idxs : List ℕ) (start : ℕ)
    (hstart : start < ss.length) (hmem : ∀ i ∈ idxs, i + 1 < ss.length) :
    chunkGroups ss idxs start ≠ [] := by
  have := length_chunkGroups ss idxs start hstart hmem
  intro h
  rw [h] at this
  simp at this

lemma length_chunkGroups_nil (idxs : List ℕ) :
    ∀ start, (chunkGroups ([] : List (Sentence α)) idxs start).length = idxs.length := by
  induction idxs with
  | nil => intro start; simp [chunkGroups]
  | cons b rest ih => intro start; simp [chunkGroups, ih (b + 1)]

lemma spaceJoin_chunkGroups (ss : List (Sentence α)) (idxs : List ℕ) :
    ∀ start, start < ss.length →
      (∀ i ∈ idxs, start ≤ i ∧ i + 1 < ss.length) → idxs.Pairwise (· < ·) →
      spaceJoin (chunkGroups ss idxs start) =
        spaceJoin ((ss.drop start).map (·.sentence)) := by
  induction idxs with
  | nil => intro start hstart _ _; simp [chunkGroups, hstart]
  | cons b rest ih =>
    intro start hstart hmem hsort
    obtain ⟨hsb, hb⟩ := hmem b (.head _)
    have hsplit : ss.drop start = (ss.drop start).take (b + 1 - start) ++ ss.drop (b + 1) := by
      conv_lhs => rw [← List.take_append_drop (b + 1 - start) (ss.drop start)]
      rw [List.drop_drop]
      congr 2
      omega
    have hg : ((ss.drop start).take (b + 1 - start)).map (·.sentence) ≠ [] := by
      simp only [ne_eq, List.map_eq_nil_iff, List.take_eq_nil_iff, List.drop_eq_nil_iff]
      omega
    have htail : chunkGroups ss rest (b + 1) ≠ [] :=
      chunkGroups_ne_nil ss rest (b + 1) hb fun i hi => (hmem i (.tail _ hi)).2
    have hmem2 : ∀ i ∈ rest, b + 1 ≤ i ∧ i + 1 < ss.length := by
      intro i hi
      exact ⟨(List.rel_of_pairwise_cons hsort hi), (hmem i (.tail _ hi)).2⟩
    have hrest : spaceJoin (chunkGroups ss rest (b + 1)) =
        spaceJoin ((ss.drop (b + 1)).map (·.sentence)) :=
      ih (b + 1) hb hmem2 (List.Pairwise.of_cons hsort)
    have hdropne : (ss.drop (b + 1)).map (·.sentence) ≠ [] := by
      simp only [ne_eq, List.map_eq_nil_iff, List.drop_eq_nil_iff]
      omega
    calc spaceJoin (chunkGroups ss (b :: rest) start)
        = spaceJoin (((ss.drop start).take (b + 1 - start)).map (·.sentence)) ++ " " ++
            spaceJoin (chunkGroups ss rest (b + 1)) := by
          rw [chunkGroups, spaceJoin_cons _ _ htail]
      _ = spaceJoin (((ss.drop start).take (b + 1 - start)).map (·.sentence)) ++ " " ++
            spaceJoin ((ss.drop (b + 1)).map (·.sentence)) := by rw [hrest]
      _ = spaceJoin ((((ss.drop start).take (b + 1 - start)) ++ ss.drop (b + 1)).map (·.sentence)) := by
          rw [List.map_append, spaceJoin_append _ _ hg hdropne]
      _ = spaceJoin ((ss.drop start).map (·.sentence)) := by rw [← hsplit]

lemma chunkGroups_eq_assembleSpec (ss : List (Sentence α)) (idxs : List ℕ) :
    ∀ start, chunkGroups ss idxs start = assembleSpec (ss.map (·.sentence)) idxs start := by
  induction idxs with
  | nil =>
    intro start
    simp [chunkGroups, assembleSpec, List.map_drop]
  | cons b rest ih =>
    intro start
    simp [chunkGroups, assembleSpec, List.map_drop, List.map_take, ih (b + 1)]

/-! ## Helper lemmas: the breakpoint index list -/

lemma mem_indicesAboveThreshold {t : α} {d : List α} {i : ℕ}
    (h : i ∈ indicesAboveThreshold t d) : i < d.length ∧ t < d.getD i 0 := by
  simp only [indicesAboveThreshold, List.mem_map, List.mem_filter] at h
  obtain ⟨p, ⟨hpe, hpt⟩, rfl⟩ := h
  rw [List.mem_enum_iff_getElem?] at hpe
  have hlen : p.1 < d.length := by
    by_contra hge
    rw [List.getElem?_eq_none (by omega)] at hpe
    exact Option.noConfusion hpe
  refine ⟨hlen, ?_⟩
  rw [List.getD_eq_getElem?_getD, hpe]
  simpa using hpt

lemma pairwise_indicesAboveThreshold (t : α) (d : List α) :
    (indicesAboveThreshold t d).Pairwise (· < ·) := by
  rw [indicesAboveThreshold, List.pairwise_map]
  refine List.Pairwise.filter _ ?_
  have h1 : (d.enum.map Prod.fst).Pairwise (· < ·) := by
    rw [List.enum_map_fst]
    exact List.pairwise_lt_range _
  rwa [List.pairwise_map] at h1

lemma length_indicesAboveThreshold_antitone {t1 t2 : α} (d : List α) (h : t1 ≤ t2) :
    (indicesAboveThreshold t2 d).length ≤ (indicesAboveThreshold t1 d).length := by
  simp only [indicesAboveThreshold, List.length_map, ← List.countP_eq_length_filter]
  refine List.countP_mono_left ?_
  intro p _ hp
  simp only [decide_eq_true_eq] at hp ⊢
  exact lt_of_le_of_lt h hp

/-! ## Helper lemmas: pipeline stages preserve the raw sentences -/

lemma map_sentence_text_to_sentences (text : String) :
    (text_to_sentences (α := α) text).map (·.sentence) = split_into_sentences text := by
  rw [text_to_sentences, List.map_map]
  exact List.enum_map_snd _

lemma length_text_to_sentences (text : String) :
    (text_to_sentences (α := α) text).length = (split_into_sentences text).length := by
  simp [text_to_sentences]

lemma map_sentence_combine_sentences (ss : List (Sentence α)) (b : ℕ) :
    (combine_sentences ss b).map (·.sentence) = ss.map (·.sentence) := by
  rw [combine_sentences, List.mapIdx_eq_enum_map, List.map_map]
  have h : ((fun x : Sentence α => x.sentence) ∘
      Function.uncurry fun i s =>
        { s with combined_sentence := some (combinedText ss b i) }) =
      ((fun x : Sentence α => x.sentence) ∘ Prod.snd) := rfl
  rw [h, ← List.map_map, List.enum_map_snd]

lemma length_combine_sentences (ss : List (Sentence α)) (b : ℕ) :
    (combine_sentences ss b).length = ss.length := by
  simp [combine_sentences]

lemma map_sentence_embed_sentences (c : SemanticChunker α) (ss : List (Sentence α)) :
    (embed_sentences c ss).map (·.sentence) = ss.map (·.sentence) := by
  rw [embed_sentences, List.map_map]
  rfl

lemma length_embed_sentences (c : SemanticChunker α) (ss : List (Sentence α)) :
    (embed_sentences c ss).length = ss.length := by
  simp [embed_sentences]

lemma map_sentence_cosine (sq : α → α) (ss : List (Sentence α)) :
    (calculate_cosine_distances sq ss).2.map (·.sentence) = ss.map (·.sentence) := by
  simp only [calculate_cosine_distances, List.mapIdx_eq_enum_map, List.map_map]
  have h : ∀ p ∈ ss.enum, ((fun x : Sentence α => x.sentence) ∘
      Function.uncurry fun i s =>
        if i < ss.length - 1 then
          { s with distance_to_next := some (((List.range (ss.length - 1)).map fun i =>
              let ec := (ss.getD i (Sentence.dflt α)).combined_embedding.getD []
              let en := (ss.getD (i + 1) (Sentence.dflt α)).combined_embedding.getD []
              1 - npDot ec en / (npNorm sq ec * npNorm sq en)).getD i 0) }
        else s) p =
      ((fun x : Sentence α => x.sentence) ∘ Prod.snd) p := by
    intro p _
    by_cases hp : p.1 < ss.length - 1 <;> simp [Function.uncurry, hp]
  rw [List.map_congr_left h, ← List.map_map, List.enum_map_snd]

lemma length_cosine_snd (sq : α → α) (ss : List (Sentence α)) :
    (calculate_cosine_distances sq ss).2.length = ss.length := by
  simp [calculate_cosine_distances]

lemma length_cosine_fst (sq : α → α) (ss : List (Sentence α)) :
    (calculate_cosine_distances sq ss).1.length = ss.length - 1 := by
  simp [calculate_cosine_distances]

/-- The sentence records reaching `_combine_sentences_to_chunks` inside
`try_chunk`. -/
def try_chunk_final_sentences (c : SemanticChunker α) (sq : α → α) (text : String) :
    List (Sentence α) :=
  (calculate_cosine_distances sq
    (embed_sentences c (combine_sentences (text_to_sentences (α := α) text) 1))).2

lemma try_chunk_eq (c : SemanticChunker α) (sq : α → α) (text : String) :
    try_chunk c sq text =
      combine_sentences_to_chunks c sq (try_chunk_distances c sq text)
        (try_chunk_final_sentences c sq text) := rfl

lemma map_sentence_try_chunk_final (c : SemanticChunker α) (sq : α → α) (text : String) :
    (try_chunk_final_sentences c sq text).map (·.sentence) = split_into_sentences text := by
  rw [try_chunk_final_sentences, map_sentence_cosine, map_sentence_embed_sentences,
    map_sentence_combine_sentences, map_sentence_text_to_sentences]

lemma length_try_chunk_final (c : SemanticChunker α) (sq : α → α) (text : String) :
    (try_chunk_final_sentences c sq text).length = (split_into_sentences text).length := by
  rw [try_chunk_final_sentences, length_cosine_snd, length_embed_sentences,
    length_combine_sentences, length_text_to_sentences]

lemma length_try_chunk_distances (c : SemanticChunker α) (sq : α → α) (text : String) :
    (try_chunk_distances c sq text).length = (split_into_sentences text).length - 1 := by
  rw [try_chunk_distances, length_cosine_fst, length_embed_sentences,
    length_combine_sentences, length_text_to_sentences]

/-- C1: for a non-empty sentence sequence, a successful `try_chunk` run
partitions the sentence sequence exactly — the space-joined concatenation of
the chunks equals the space-joined sentence sequence, the chunks are the
spec's assembly of the sentences along a strictly increasing list of
breakpoint indices, and every breakpoint index `i` satisfies
`threshold < distance_to_next of sentence i`. -/
theorem try_chunk_partition (c : SemanticChunker α) (sq : α → α) (text : String)
    (chunks : List String)
    (hne : split_into_sentences text ≠ [])
    (hok : try_chunk c sq text = .ok chunks) :
    spaceJoin chunks = spaceJoin (split_into_sentences text) ∧
    ∃ t, calculate_breakpoint_threshold c sq (try_chunk_distances c sq text) = .ok t ∧
      ∃ bps : List ℕ, bps.Pairwise (· < ·) ∧
        (∀ i ∈ bps, i + 1 < (split_into_sentences text).length ∧
          t < (try_chunk_distances c sq text).getD i 0) ∧
        chunks = assembleSpec (split_into_sentences text) bps 0 := by
  rw [try_chunk_eq, combine_sentences_to_chunks] at hok
  set d := try_chunk_distances c sq text with hd
  set ss := try_chunk_final_sentences c sq text with hss
  have hN : ss.length = (split_into_sentences text).length :=
    length_try_chunk_final c sq text
  have hdlen : d.length = (split_into_sentences text).length - 1 :=
    length_try_chunk_distances c sq text
  have hNpos : 0 < (split_into_sentences text).length :=
    List.length_pos.mpr hne
  cases hth : calculate_breakpoint_threshold c sq d with
  | error e => rw [hth] at hok; exact absurd hok (by simp)
  | ok t =>
    rw [hth] at hok
    have hchunks : chunks = chunkGroups ss (indicesAboveThreshold t d) 0 :=
      (Except.ok.inj hok).symm
    have hmem : ∀ i ∈ indicesAboveThreshold t d,
        i + 1 < (split_into_sentences text).length ∧ t < d.getD i 0 := by
      intro i hi
      obtain ⟨hilen, hit⟩ := mem_indicesAboveThreshold hi
      refine ⟨by omega, hit⟩
    refine ⟨?_, t, rfl, indicesAboveThreshold t d,
      pairwise_indicesAboveThreshold t d, hmem, ?_⟩
    · rw [hchunks, spaceJoin_chunkGroups ss _ 0 (by omega)
        (fun i hi => ⟨Nat.zero_le i, by have := (hmem i hi).1; omega⟩)
        (pairwise_indicesAboveThreshold t d)]
      rw [List.drop_zero, map_sentence_try_chunk_final]
    · rw [hchunks, chunkGroups_eq_assembleSpec, map_sentence_try_chunk_final]

set_option maxRecDepth 400000 in
/-- Witness for `try_chunk_partition`: a concrete successful run over `ℚ`. -/
theorem try_chunk_partition_witness :
    (split_into_sentences "Hello. World." ≠ [] ∧
      try_chunk chunkerW id "Hello. World." = .ok ["Hello. World."]) ∧
    (spaceJoin ["Hello. World."] = spaceJoin (split_into_sentences "Hello. World.") ∧
      ∃ t, calculate_breakpoint_threshold chunkerW id
          (try_chunk_distances chunkerW id "Hello. World.") = .ok t ∧
        ∃ bps : List ℕ, bps.Pairwise (· < ·) ∧
          (∀ i ∈ bps, i + 1 < (split_into_sentences "Hello. World.").length ∧
            t < (try_chunk_distances chunkerW id "Hello. World.").getD i 0) ∧
          ["Hello. World."] = assembleSpec (split_into_sentences "Hello. World.") bps 0) :=
  have h1 : split_into_sentences "Hello. World." ≠ [] := by decide
  have h2 : try_chunk chunkerW id "Hello. World." = .ok ["Hello. World."] := by decide
  ⟨⟨h1, h2⟩, try_chunk_partition chunkerW id "Hello. World." ["Hello. World."] h1 h2⟩

set_option maxRecDepth 400000 in
/-- C7: the scenario input splits into exactly three sentences; the periods
of "Dr.", "Mrs." and "A.I." do not produce sentence breaks. -/
theorem split_into_sentences_scenario :
    split_into_sentences
        "Dr. Smith went to Washington. He met Mrs. Jones there. They discussed A.I. ethics extensively." =
      ["Dr. Smith went to Washington.", "He met Mrs. Jones there.",
        "They discussed A.I. ethics extensively."] := by
  decide

set_option maxRecDepth 400000 in
/-- C2 fails on the code: a single-sentence input (under the default
configuration: `percentile` with factory default amount `95`) does not yield
that sentence as the sole chunk — `try_chunk` still calls
`_calculate_breakpoint_threshold` on the empty distance list, and
`np.percentile([], 95)` fails.  The distance/threshold computation is not
skipped for `N ≤ 1`. -/
theorem try_chunk_single_sentence_fails :
    split_into_sentences "Hello." = ["Hello."] ∧
    mkSemanticChunker chunkerW.embedding_driver "percentile" none = .ok chunkerW ∧
    try_chunk chunkerW id "Hello." =
      .error "IndexError: cannot do a non-empty take from an empty axes." := by
  refine ⟨by decide, rfl, by decide⟩

lemma try_chunk_calls_eq (c : SemanticChunker α) (sq : α → α) (text : String) :
    (try_chunk_with_calls c sq text).2 =
      (combine_sentences (text_to_sentences (α := α) text) 1).map
        (fun s => s.combined_sentence.getD "") := by
  simp only [try_chunk_with_calls]

lemma length_try_chunk_calls (c : SemanticChunker α) (sq : α → α) (text : String) :
    (try_chunk_with_calls c sq text).2.length = (split_into_sentences text).length := by
  rw [try_chunk_calls_eq, List.length_map, length_combine_sentences,
    length_text_to_sentences]

set_option maxRecDepth 400000 in
/-- C3 is false as stated: with an unknown threshold type and an explicitly
configured amount, `try_chunk` on a two-sentence input reaches the
`ValueError` of `_calculate_breakpoint_threshold` only after the embedding
driver was called on both sentence windows — the failure is not "before any
embedding-provider call". -/
theorem try_chunk_unknown_type_embeds_first :
    (try_chunk_with_calls chunkerBad id "Hello. World.").1 =
      .error "Got unexpected `breakpoint_threshold_type`: median" ∧
    (try_chunk_with_calls chunkerBad id "Hello. World.").2 =
      ["Hello. World.", "Hello. World."] := by
  refine ⟨by decide, by decide⟩

/-- C3 (amended): for every configuration whose threshold type is none of
`percentile`, `standard_deviation`, `interquartile`, and every input text,
`try_chunk` fails with the `ValueError` of `_calculate_breakpoint_threshold`;
by that point the embedding driver has been called once per sentence window
(so the failure is after, not before, the embedding calls).  Only when the
amount is left to its factory default does the failure happen early: the
construction itself fails with a `KeyError`. -/
theorem try_chunk_unknown_type (c : SemanticChunker α) (sq : α → α) (text : String)
    (h1 : c.breakpoint_threshold_type ≠ "percentile")
    (h2 : c.breakpoint_threshold_type ≠ "standard_deviation")
    (h3 : c.breakpoint_threshold_type ≠ "interquartile") :
    try_chunk c sq text =
      .error ("Got unexpected `breakpoint_threshold_type`: " ++ c.breakpoint_threshold_type) ∧
    (try_chunk_with_calls c sq text).2.length = (split_into_sentences text).length ∧
    mkSemanticChunker c.embedding_driver c.breakpoint_threshold_type none =
      .error ("KeyError: " ++ c.breakpoint_threshold_type) := by
  refine ⟨?_, length_try_chunk_calls c sq text, ?_⟩
  · rw [try_chunk_eq, combine_sentences_to_chunks, calculate_breakpoint_threshold]
    simp [h1, h2, h3, npPercentile]
  · rw [mkSemanticChunker, BREAKPOINT_DEFAULTS]
    simp [h1, h2, h3]

set_option maxRecDepth 400000 in
/-- Witness for `try_chunk_unknown_type` at a concrete configuration. -/
theorem try_chunk_unknown_type_witness :
    (chunkerBad.breakpoint_threshold_type ≠ "percentile" ∧
      chunkerBad.breakpoint_threshold_type ≠ "standard_deviation" ∧
      chunkerBad.breakpoint_threshold_type ≠ "interquartile") ∧
    (try_chunk chunkerBad id "Hi. Ho." =
      .error ("Got unexpected `breakpoint_threshold_type`: " ++
        chunkerBad.breakpoint_threshold_type) ∧
    (try_chunk_with_calls chunkerBad id "Hi. Ho.").2.length =
      (split_into_sentences "Hi. Ho.").length ∧
    mkSemanticChunker chunkerBad.embedding_driver chunkerBad.breakpoint_threshold_type none =
      .error ("KeyError: " ++ chunkerBad.breakpoint_threshold_type)) :=
  have h1 : chunkerBad.breakpoint_threshold_type ≠ "percentile" := by decide
  have h2 : chunkerBad.breakpoint_threshold_type ≠ "standard_deviation" := by decide
  have h3 : chunkerBad.breakpoint_threshold_type ≠ "interquartile" := by decide
  ⟨⟨h1, h2, h3⟩, try_chunk_unknown_type chunkerBad id "Hi. Ho." h1 h2 h3⟩

/-! ## Helper lemmas: the context window (`_combine_sentences`) -/

lemma mem_intRange {j lo hi : ℤ} (h : j ∈ intRange lo hi) : lo ≤ j ∧ j < hi := by
  simp only [intRange, List.mem_map, List.mem_range] at h
  obtain ⟨k, hk, rfl⟩ := h
  omega

lemma intRange_append (lo mid hi : ℤ) (h1 : lo ≤ mid) (h2 : mid ≤ hi) :
    intRange lo mid ++ intRange mid hi = intRange lo hi := by
  unfold intRange
  have ha : (hi - lo).toNat = (hi - mid).toNat + (mid - lo).toNat := by omega
  rw [ha, List.range_eq_range' ((hi - mid).toNat + (mid - lo).toNat),
    ← List.range'_append 0 ((mid - lo).toNat) ((hi - mid).toNat) 1]
  rw [List.map_append]
  congr 1
  · rw [List.range_eq_range']
  · rw [show 0 + 1 * (mid - lo).toNat = (mid - lo).toNat from by omega,
      List.range'_eq_map_range]
    simp only [List.map_map]
    refine List.map_congr_left ?_
    intro k _
    simp only [Function.comp_apply]
    omega

lemma intRange_filter_nonneg (lo hi : ℤ) (hhi : 0 ≤ hi) :
    ((intRange lo hi).filter fun j => 0 ≤ j) = intRange (max lo 0) hi := by
  rcases le_or_lt 0 lo with hlo | hlo
  · rw [max_eq_left hlo, List.filter_eq_self.mpr]
    intro a ha
    have := (mem_intRange ha).1
    simp only [decide_eq_true_eq]
    omega
  · rw [max_eq_right hlo.le, ← intRange_append lo 0 hi hlo.le hhi, List.filter_append]
    have h1 : ((intRange lo 0).filter fun j => 0 ≤ j) = [] := by
      rw [List.filter_eq_nil_iff]
      intro a ha
      have := (mem_intRange ha).2
      simp only [decide_eq_true_eq]
      omega
    have h2 : ((intRange 0 hi).filter fun j => 0 ≤ j) = intRange 0 hi := by
      rw [List.filter_eq_self]
      intro a ha
      have := (mem_intRange ha).1
      simp only [decide_eq_true_eq]
      omega
    rw [h1, h2, List.nil_append]

lemma intRange_filter_lt (lo hi N : ℤ) (hloN : lo ≤ N) :
    ((intRange lo hi).filter fun j => j < N) = intRange lo (min hi N) := by
  rcases le_or_lt hi N with hcase | hcase
  · rw [min_eq_left hcase, List.filter_eq_self.mpr]
    intro a ha
    have := (mem_intRange ha).2
    simp only [decide_eq_true_eq]
    omega
  · rw [min_eq_right hcase.le, ← intRange_append lo N hi hloN hcase.le,
      List.filter_append]
    have h1 : ((intRange lo N).filter fun j => j < N) = intRange lo N := by
      rw [List.filter_eq_self]
      intro a ha
      have := (mem_intRange ha).2
      simp only [decide_eq_true_eq]
      omega
    have h2 : ((intRange N hi).filter fun j => j < N) = [] := by
      rw [List.filter_eq_nil_iff]
      intro a ha
      have := (mem_intRange ha).1
      simp only [decide_eq_true_eq]
      omega
    rw [h1, h2, List.append_nil]

lemma intRange_natCast (lo hi : ℕ) :
    intRange lo hi = (List.range' lo (hi - lo)).map fun n : ℕ => (n : ℤ) := by
  unfold intRange
  have h : ((hi : ℤ) - lo).toNat = hi - lo := by omega
  rw [h, List.range'_eq_map_range, List.map_map]
  refine List.map_congr_left ?_
  intro k _
  simp only [Function.comp_apply]
  omega

lemma sentence_getD_map (ss : List (Sentence α)) (j : ℕ) :
    (ss.getD j (Sentence.dflt α)).sentence = (ss.map (·.sentence)).getD j "" := by
  rw [List.getD_eq_getElem?_getD, List.getD_eq_getElem?_getD, List.getElem?_map]
  cases h : ss[j]? <;> rfl

lemma slice_cons (L : List String) (lo m : ℕ) (h : lo < L.length) :
    (L.drop lo).take (m + 1) = L.getD lo "" :: (L.drop (lo + 1)).take m := by
  rw [List.drop_eq_getElem_cons h, List.take_succ_cons]
  congr 1
  rw [List.getD_eq_getElem?_getD, List.getElem?_eq_getElem h]
  rfl

lemma core_join (L : List String) :
    ∀ m start, start + m < L.length →
      L.getD start "" ++ concatAll ((List.range' (start + 1) m).map fun j => " " ++ L.getD j "") =
        spaceJoin ((L.drop start).take (m + 1)) := by
  intro m
  induction m with
  | zero =>
    intro start h
    rw [slice_cons L start 0 (by omega)]
    simp [concatAll, spaceJoin, String.append_empty]
  | succ m ih =>
    intro start h
    have htail : (L.drop (start + 1)).take (m + 1) ≠ [] := by
      simp only [ne_eq, List.take_eq_nil_iff, List.drop_eq_nil_iff]
      omega
    rw [List.range'_succ, List.map_cons, concatAll,
      slice_cons L start (m + 1) (by omega), spaceJoin_cons _ _ htail,
      ← ih (start + 1) (by omega)]
    simp [String.append_assoc]

lemma before_join (L : List String) :
    ∀ k lo t, lo + k < L.length → 1 ≤ t →
      concatAll ((List.range' lo k).map fun j => L.getD j "" ++ " ") ++
          spaceJoin ((L.drop (lo + k)).take t) =
        spaceJoin ((L.drop lo).take (k + t)) := by
  intro k
  induction k with
  | zero =>
    intro lo t h ht
    simp [concatAll, String.empty_append]
  | succ k ih =>
    intro lo t h ht
    have hlt : lo < L.length := by omega
    have htail : (L.drop (lo + 1)).take (k + t) ≠ [] := by
      simp only [ne_eq, List.take_eq_nil_iff, List.drop_eq_nil_iff]
      omega
    rw [List.range'_succ, List.map_cons, concatAll,
      show lo + (k + 1) = (lo + 1) + k from by omega,
      show k + 1 + t = (k + t) + 1 from by omega,
      slice_cons L lo (k + t) hlt, spaceJoin_cons _ _ htail,
      ← ih (lo + 1) t (by omega) ht]
    simp [String.append_assoc]

lemma combinedText_window (ss : List (Sentence α)) (b i : ℕ) (hi : i < ss.length) :
    combinedText ss b i =
      spaceJoin (((ss.map (·.sentence)).drop (i - b)).take
        (min (ss.length - 1) (i + b) + 1 - (i - b))) := by
  have hlen : (ss.map (·.sentence)).length = ss.length := by simp
  rw [combinedText]
  have hbefore : ((intRange ((i : ℤ) - b) i).filter fun j => 0 ≤ j) =
      (List.range' (i - b) (i - (i - b))).map fun n : ℕ => (n : ℤ) := by
    rw [intRange_filter_nonneg _ _ (by omega),
      show max ((i : ℤ) - b) 0 = ((i - b : ℕ) : ℤ) from by omega,
      show (i : ℤ) = ((i : ℕ) : ℤ) from rfl, intRange_natCast]
  have hafter : ((intRange ((i : ℤ) + 1) ((i : ℤ) + 1 + b)).filter
      fun j => j < (ss.length : ℤ)) =
      (List.range' (i + 1) (min (i + 1 + b) ss.length - (i + 1))).map
        fun n : ℕ => (n : ℤ) := by
    rw [intRange_filter_lt _ _ _ (by omega),
      show min ((i : ℤ) + 1 + b) (ss.length : ℤ) =
        ((min (i + 1 + b) ss.length : ℕ) : ℤ) from by omega,
      show (i : ℤ) + 1 = ((i + 1 : ℕ) : ℤ) from by omega, intRange_natCast]
  rw [hbefore, hafter, List.map_map, List.map_map]
  have hfb : ((fun j : ℤ => (ss.getD j.toNat (Sentence.dflt α)).sentence ++ " ") ∘
      fun n : ℕ => (n : ℤ)) =
      fun n : ℕ => (ss.map (·.sentence)).getD n "" ++ " " := by
    funext n
    simp only [Function.comp_apply, Int.toNat_natCast]
    rw [sentence_getD_map]
  have hfa : ((fun j : ℤ => " " ++ (ss.getD j.toNat (Sentence.dflt α)).sentence) ∘
      fun n : ℕ => (n : ℤ)) =
      fun n : ℕ => " " ++ (ss.map (·.sentence)).getD n "" := by
    funext n
    simp only [Function.comp_apply, Int.toNat_natCast]
    rw [sentence_getD_map]
  rw [hfb, hfa, sentence_getD_map, String.append_assoc]
  rw [core_join (ss.map (·.sentence)) (min (i + 1 + b) ss.length - (i + 1)) i
    (by omega)]
  have hbj := before_join (ss.map (·.sentence)) (i - (i - b)) (i - b)
    ((min (i + 1 + b) ss.length - (i + 1)) + 1) (by omega) (by omega)
  rw [show (i - b) + (i - (i - b)) = i from by omega] at hbj
  rw [hbj, show (i - (i - b)) + ((min (i + 1 + b) ss.length - (i + 1)) + 1) =
    min (ss.length - 1) (i + b) + 1 - (i - b) from by omega]

lemma combine_sentences_getD (ss : List (Sentence α)) (b i : ℕ) (hi : i < ss.length) :
    (combine_sentences ss b).getD i (Sentence.dflt α) =
      { ss.getD i (Sentence.dflt α) with
        combined_sentence := some (combinedText ss b i) } := by
  rw [combine_sentences, List.mapIdx_eq_enum_map,
    List.getD_eq_getElem?_getD, List.getD_eq_getElem?_getD, List.getElem?_map]
  have he : ss.enum[i]? = some (i, ss[i]) := by
    rw [List.getElem?_enum, List.getElem?_eq_getElem hi]
    rfl
  rw [he, List.getElem?_eq_getElem hi]
  rfl

/-- C6: for every sentence list, buffer size `b` and index `i < N`,
`_combine_sentences` sets the combined text of sentence `i` to exactly the
space-joined raw sentences at indices `max(0, i-b)` through `min(N-1, i+b)`
inclusive, in original order (expressed as the slice of the raw-sentence
list starting at `i - b` — truncated subtraction, i.e. `max(0, i-b)` — of
length `min(N-1, i+b) + 1 - (i-b)`), and modifies nothing else: the raw
sentence, its index, its distance field and the list length are unchanged. -/
theorem combine_sentences_window (ss : List (Sentence α)) (b i : ℕ)
    (hi : i < ss.length) :
    ((combine_sentences ss b).getD i (Sentence.dflt α)).combined_sentence =
      some (spaceJoin (((ss.map (·.sentence)).drop (i - b)).take
        (min (ss.length - 1) (i + b) + 1 - (i - b)))) ∧
    ((combine_sentences ss b).getD i (Sentence.dflt α)).sentence =
      (ss.getD i (Sentence.dflt α)).sentence ∧
    ((combine_sentences ss b).getD i (Sentence.dflt α)).index =
      (ss.getD i (Sentence.dflt α)).index ∧
    ((combine_sentences ss b).getD i (Sentence.dflt α)).distance_to_next =
      (ss.getD i (Sentence.dflt α)).distance_to_next ∧
    (combine_sentences ss b).length = ss.length := by
  rw [combine_sentences_getD ss b i hi]
  exact ⟨by rw [combinedText_window ss b i hi], rfl, rfl, rfl,
    length_combine_sentences ss b⟩

/-- Witness for `combine_sentences_window` at a concrete sentence list,
buffer size 1 and index 2. -/
theorem combine_sentences_window_witness :
    2 < sentencesW.length ∧
    (((combine_sentences sentencesW 1).getD 2 (Sentence.dflt ℚ)).combined_sentence =
      some (spaceJoin (((sentencesW.map (·.sentence)).drop (2 - 1)).take
        (min (sentencesW.length - 1) (2 + 1) + 1 - (2 - 1)))) ∧
    ((combine_sentences sentencesW 1).getD 2 (Sentence.dflt ℚ)).sentence =
      (sentencesW.getD 2 (Sentence.dflt ℚ)).sentence ∧
    ((combine_sentences sentencesW 1).getD 2 (Sentence.dflt ℚ)).index =
      (sentencesW.getD 2 (Sentence.dflt ℚ)).index ∧
    ((combine_sentences sentencesW 1).getD 2 (Sentence.dflt ℚ)).distance_to_next =
      (sentencesW.getD 2 (Sentence.dflt ℚ)).distance_to_next ∧
    (combine_sentences sentencesW 1).length = sentencesW.length) :=
  have h : 2 < sentencesW.length := by decide
  ⟨h, combine_sentences_window sentencesW 1 2 h⟩

/-- C10: inside `try_chunk` the context-window size is always 1:
`_combine_sentences` is called without a `buffer_size` argument, so for every
configuration the embedded text of sentence `i` is the space-joined sentences
`max(0, i-1) .. min(N-1, i+1)`, and no field of the chunker (nor the `sq`
model of the square root) can change the windowed texts. -/
theorem try_chunk_buffer_is_one (c : SemanticChunker α) (sq : α → α) (text : String)
    (i : ℕ) (hi : i < (split_into_sentences text).length) :
    (try_chunk_with_calls c sq text).2.getD i "" =
      spaceJoin (((split_into_sentences text).drop (i - 1)).take
        (min ((split_into_sentences text).length - 1) (i + 1) + 1 - (i - 1))) ∧
    ∀ (c' : SemanticChunker α) (sq' : α → α),
      (try_chunk_with_calls c' sq' text).2 = (try_chunk_with_calls c sq text).2 := by
  constructor
  · have hlen3 : i < (text_to_sentences (α := α) text).length := by
      rw [length_text_to_sentences]
      exact hi
    have hlen2 : i < (combine_sentences (text_to_sentences (α := α) text) 1).length := by
      rw [length_combine_sentences]
      exact hlen3
    rw [try_chunk_calls_eq, List.getD_eq_getElem?_getD, List.getElem?_map,
      List.getElem?_eq_getElem hlen2]
    simp only [Option.map_some', Option.getD_some]
    have hgetd := List.getD_eq_getElem?_getD
      (combine_sentences (text_to_sentences (α := α) text) 1) i (Sentence.dflt α)
    rw [List.getElem?_eq_getElem hlen2] at hgetd
    simp only [Option.getD_some] at hgetd
    rw [← hgetd, combine_sentences_getD _ 1 i hlen3]
    show combinedText (text_to_sentences (α := α) text) 1 i = _
    rw [combinedText_window _ 1 i hlen3, map_sentence_text_to_sentences,
      length_text_to_sentences]
  · intro c' sq'
    rw [try_chunk_calls_eq, try_chunk_calls_eq]

set_option maxRecDepth 400000 in
/-- Witness for `try_chunk_buffer_is_one` at a concrete input. -/
theorem try_chunk_buffer_is_one_witness :
    0 < (split_into_sentences "Hello. World.").length ∧
    ((try_chunk_with_calls chunkerW id "Hello. World.").2.getD 0 "" =
      spaceJoin (((split_into_sentences "Hello. World.").drop (0 - 1)).take
        (min ((split_into_sentences "Hello. World.").length - 1) (0 + 1) + 1 - (0 - 1))) ∧
    ∀ (c' : SemanticChunker ℚ) (sq' : ℚ → ℚ),
      (try_chunk_with_calls c' sq' "Hello. World.").2 =
        (try_chunk_with_calls chunkerW id "Hello. World.").2) :=
  have h : 0 < (split_into_sentences "Hello. World.").length := by decide
  ⟨h, try_chunk_buffer_is_one chunkerW id "Hello. World." 0 h⟩

/-! ## C4: the threshold formulas and the per-method defaults -/

/-- C4: on a non-empty distance list, `_calculate_breakpoint_threshold`
computes exactly the spec's formula for each of the three methods
(`percentile` requires the amount to lie in `[0, 100]`, as `np.percentile`
does), and the method-specific default amount (95 / 3 / 1.5) is used exactly
when no amount is configured, while a configured amount is always used
as given. -/
theorem calculate_breakpoint_threshold_formulas (sq : α → α) (d : List α)
    (hd : d ≠ []) :
    (∀ a : α, 0 ≤ a → a ≤ 100 → ∀ e : String → List α,
      calculate_breakpoint_threshold ⟨e, "percentile", a⟩ sq d =
        .ok ((specBreakpointThreshold sq "percentile" a d).getD 0)) ∧
    (∀ a : α, ∀ e : String → List α,
      calculate_breakpoint_threshold ⟨e, "standard_deviation", a⟩ sq d =
        .ok ((specBreakpointThreshold sq "standard_deviation" a d).getD 0)) ∧
    (∀ a : α, ∀ e : String → List α,
      calculate_breakpoint_threshold ⟨e, "interquartile", a⟩ sq d =
        .ok ((specBreakpointThreshold sq "interquartile" a d).getD 0)) ∧
    BREAKPOINT_DEFAULTS α "percentile" = some 95 ∧
    BREAKPOINT_DEFAULTS α "standard_deviation" = some 3 ∧
    BREAKPOINT_DEFAULTS α "interquartile" = some (3 / 2) ∧
    (∀ (e : String → List α) (t : String) (a : α),
      mkSemanticChunker e t (some a) = .ok ⟨e, t, a⟩) ∧
    (∀ e : String → List α,
      mkSemanticChunker e "percentile" none = .ok ⟨e, "percentile", 95⟩) ∧
    (∀ e : String → List α,
      mkSemanticChunker e "standard_deviation" none =
        .ok ⟨e, "standard_deviation", 3⟩) ∧
    (∀ e : String → List α,
      mkSemanticChunker e "interquartile" none = .ok ⟨e, "interquartile", 3 / 2⟩) := by
  refine ⟨?_, ?_, ?_, rfl, rfl, rfl, fun e t a => rfl, fun e => rfl, fun e => rfl,
    fun e => rfl⟩
  · intro a ha0 ha100 e
    rw [calculate_breakpoint_threshold, npPercentile, specBreakpointThreshold]
    simp [hd, not_lt.mpr ha0, not_lt.mpr ha100]
  · intro a e
    rw [calculate_breakpoint_threshold, specBreakpointThreshold]
    simp
  · intro a e
    rw [calculate_breakpoint_threshold, specBreakpointThreshold]
    simp only [npPercentile]
    have h25 : ¬((25 : α) < 0 ∨ (100 : α) < 25) := by
      push_neg
      constructor <;> norm_num
    have h75 : ¬((75 : α) < 0 ∨ (100 : α) < 75) := by
      push_neg
      constructor <;> norm_num
    simp [hd, h25, h75]

/-- Witness for `calculate_breakpoint_threshold_formulas` on a concrete
non-empty distance list. -/
theorem calculate_breakpoint_threshold_formulas_witness :
    ([(1 : ℚ)] ≠ []) ∧
    ((∀ a : ℚ, 0 ≤ a → a ≤ 100 → ∀ e : String → List ℚ,
      calculate_breakpoint_threshold ⟨e, "percentile", a⟩ id [(1 : ℚ)] =
        .ok ((specBreakpointThreshold id "percentile" a [(1 : ℚ)]).getD 0)) ∧
    (∀ a : ℚ, ∀ e : String → List ℚ,
      calculate_breakpoint_threshold ⟨e, "standard_deviation", a⟩ id [(1 : ℚ)] =
        .ok ((specBreakpointThreshold id "standard_deviation" a [(1 : ℚ)]).getD 0)) ∧
    (∀ a : ℚ, ∀ e : String → List ℚ,
      calculate_breakpoint_threshold ⟨e, "interquartile", a⟩ id [(1 : ℚ)] =
        .ok ((specBreakpointThreshold id "interquartile" a [(1 : ℚ)]).getD 0)) ∧
    BREAKPOINT_DEFAULTS ℚ "percentile" = some 95 ∧
    BREAKPOINT_DEFAULTS ℚ "standard_deviation" = some 3 ∧
    BREAKPOINT_DEFAULTS ℚ "interquartile" = some (3 / 2) ∧
    (∀ (e : String → List ℚ) (t : String) (a : ℚ),
      mkSemanticChunker e t (some a) = .ok ⟨e, t, a⟩) ∧
    (∀ e : String → List ℚ,
      mkSemanticChunker e "percentile" none = .ok ⟨e, "percentile", 95⟩) ∧
    (∀ e : String → List ℚ,
      mkSemanticChunker e "standard_deviation" none =
        .ok ⟨e, "standard_deviation", 3⟩) ∧
    (∀ e : String → List ℚ,
      mkSemanticChunker e "interquartile" none = .ok ⟨e, "interquartile", 3 / 2⟩)) :=
  have hd : ([(1 : ℚ)] ≠ []) := by decide
  ⟨hd, calculate_breakpoint_threshold_formulas id [(1 : ℚ)] hd⟩

/-! ## C5: monotonicity in the breakpoint amount -/

lemma getD_irrel (s : List α) (d : α) {m : ℕ} (h : m < s.length) :
    s.getD m d = s.getD m 0 := by
  rw [List.getD_eq_getElem?_getD, List.getD_eq_getElem?_getD,
    List.getElem?_eq_getElem h]
  rfl

lemma getD_oob (s : List α) (d : α) (m : ℕ) (h : s.length ≤ m) :
    s.getD m d = d := by
  rw [List.getD_eq_getElem?_getD, List.getElem?_eq_none h]
  rfl

lemma sorted_getD_mono (s : List α) (hs : s.Sorted (· ≤ ·)) {i j : ℕ}
    (hij : i ≤ j) (hj : j < s.length) : s.getD i 0 ≤ s.getD j 0 := by
  have hi : i < s.length := lt_of_le_of_lt hij hj
  rw [List.getD_eq_getElem?_getD, List.getD_eq_getElem?_getD,
    List.getElem?_eq_getElem hi, List.getElem?_eq_getElem hj]
  simp only [Option.getD_some]
  rcases lt_or_eq_of_le hij with h | h
  · have := hs.rel_get_of_lt (a := ⟨i, hi⟩) (b := ⟨j, hj⟩) (Fin.mk_lt_mk.mpr h)
    simpa [List.get_eq_getElem] using this
  · subst h
    exact le_refl _

/-- Core monotonicity of linear interpolation along a sorted list, stated
for arbitrary cell indices `i1 ≤ i2` with the fractional parts bounded. -/
lemma interp_mono_core (s : List α) (hs : s.Sorted (· ≤ ·)) {i1 i2 : ℕ} {x y : α}
    (hxy : x ≤ y)
    (hfr1c : 0 ≤ x - (i1 : α)) (hfr1b : x - (i1 : α) < 1)
    (hfr2c : 0 ≤ y - (i2 : α))
    (hi12 : i1 ≤ i2) (hi2lt : i2 < s.length) :
    s.getD i1 0 + (x - (i1 : α)) *
      (s.getD (i1 + 1) (s.getD i1 0) - s.getD i1 0) ≤
    s.getD i2 0 + (y - (i2 : α)) *
      (s.getD (i2 + 1) (s.getD i2 0) - s.getD i2 0) := by
  rcases eq_or_lt_of_le hi12 with heq | hlt
  · subst heq
    by_cases hcell : i1 + 1 < s.length
    · rw [getD_irrel s _ hcell]
      have hlh : s.getD i1 0 ≤ s.getD (i1 + 1) 0 :=
        sorted_getD_mono s hs (by omega) hcell
      have hd0 : 0 ≤ s.getD (i1 + 1) 0 - s.getD i1 0 := sub_nonneg.mpr hlh
      have hm := mul_le_mul_of_nonneg_right (sub_le_sub_right hxy ((i1 : ℕ) : α)) hd0
      linarith
    · rw [getD_oob s (s.getD i1 0) (i1 + 1) (by omega)]
      simp
  · have hi1cell : i1 + 1 < s.length := by omega
    have hlh1 : s.getD i1 0 ≤ s.getD (i1 + 1) 0 :=
      sorted_getD_mono s hs (by omega) hi1cell
    have hub : s.getD i1 0 + (x - (i1 : α)) *
        (s.getD (i1 + 1) (s.getD i1 0) - s.getD i1 0) ≤ s.getD (i1 + 1) 0 := by
      rw [getD_irrel s _ hi1cell]
      have hd0 : 0 ≤ s.getD (i1 + 1) 0 - s.getD i1 0 := sub_nonneg.mpr hlh1
      have hm := mul_le_mul_of_nonneg_right (le_of_lt hfr1b) hd0
      linarith
    have hmid : s.getD (i1 + 1) 0 ≤ s.getD i2 0 :=
      sorted_getD_mono s hs (by omega) hi2lt
    have hlb : s.getD i2 0 ≤ s.getD i2 0 + (y - (i2 : α)) *
        (s.getD (i2 + 1) (s.getD i2 0) - s.getD i2 0) := by
      by_cases hcell2 : i2 + 1 < s.length
      · rw [getD_irrel s _ hcell2]
        have hd0 : 0 ≤ s.getD (i2 + 1) 0 - s.getD i2 0 :=
          sub_nonneg.mpr (sorted_getD_mono s hs (by omega) hcell2)
        have hm := mul_nonneg hfr2c hd0
        linarith
      · rw [getD_oob s (s.getD i2 0) (i2 + 1) (by omega)]
        simp
    linarith

/-- Monotonicity of numpy's linear interpolation along a sorted list:
the interpolated value at rank `x` is monotone in `x` on `[0, n-1]`. -/
lemma interp_mono (s : List α) (hs : s.Sorted (· ≤ ·)) (hne : s ≠ [])
    {x y : α} (hx : 0 ≤ x) (hxy : x ≤ y) (hy : y ≤ ((s.length - 1 : ℕ) : α)) :
    s.getD (Int.floor x).toNat 0 + (x - ((Int.floor x).toNat : α)) *
      (s.getD ((Int.floor x).toNat + 1) (s.getD (Int.floor x).toNat 0) -
        s.getD (Int.floor x).toNat 0) ≤
    s.getD (Int.floor y).toNat 0 + (y - ((Int.floor y).toNat : α)) *
      (s.getD ((Int.floor y).toNat + 1) (s.getD (Int.floor y).toNat 0) -
        s.getD (Int.floor y).toNat 0) := by
  have hnpos : 0 < s.length := List.length_pos.mpr hne
  have hfx0 : (0 : ℤ) ≤ Int.floor x := Int.floor_nonneg.mpr hx
  have hfy0 : (0 : ℤ) ≤ Int.floor y := Int.floor_nonneg.mpr (le_trans hx hxy)
  have hcx : (((Int.floor x).toNat : ℕ) : α) = ((Int.floor x : ℤ) : α) := by
    exact_mod_cast congrArg (fun z : ℤ => (z : α)) (Int.toNat_of_nonneg hfx0)
  have hcy : (((Int.floor y).toNat : ℕ) : α) = ((Int.floor y : ℤ) : α) := by
    exact_mod_cast congrArg (fun z : ℤ => (z : α)) (Int.toNat_of_nonneg hfy0)
  have hfr1c : 0 ≤ x - (((Int.floor x).toNat : ℕ) : α) := by
    rw [hcx]
    have h := Int.fract_nonneg x
    rwa [Int.fract] at h
  have hfr1b : x - (((Int.floor x).toNat : ℕ) : α) < 1 := by
    rw [hcx]
    have h := Int.fract_lt_one x
    rwa [Int.fract] at h
  have hfr2c : 0 ≤ y - (((Int.floor y).toNat : ℕ) : α) := by
    rw [hcy]
    have h := Int.fract_nonneg y
    rwa [Int.fract] at h
  have hi2top : (Int.floor y).toNat ≤ s.length - 1 := by
    have h1 : Int.floor y ≤ ((s.length - 1 : ℕ) : ℤ) := by
      have h2 := Int.floor_le_floor hy
      rwa [Int.floor_natCast] at h2
    omega
  have hi12 : (Int.floor x).toNat ≤ (Int.floor y).toNat := by
    have h3 := Int.floor_le_floor hxy
    omega
  exact interp_mono_core s hs hxy hfr1c hfr1b hfr2c hi12 (by omega)
lemma percentileVal_mono (l : List α) (hne : l ≠ []) {q1 q2 : α}
    (h0 : 0 ≤ q1) (h12 : q1 ≤ q2) (h100 : q2 ≤ 100) :
    percentileVal l q1 ≤ percentileVal l q2 := by
  have hslen : (l.insertionSort (· ≤ ·)).length = l.length :=
    (List.perm_insertionSort _ l).length_eq
  have hsne : l.insertionSort (· ≤ ·) ≠ [] := by
    intro h
    rw [h] at hslen
    exact hne (List.length_eq_zero.mp hslen.symm)
  have hs : (l.insertionSort (· ≤ ·)).Sorted (· ≤ ·) := List.sorted_insertionSort _ l
  have hx : (0 : α) ≤ ((l.length - 1 : ℕ) : α) * q1 / 100 :=
    div_nonneg (mul_nonneg (Nat.cast_nonneg _) h0) (by norm_num)
  have hxy : ((l.length - 1 : ℕ) : α) * q1 / 100 ≤ ((l.length - 1 : ℕ) : α) * q2 / 100 := by
    gcongr
  have hy : ((l.length - 1 : ℕ) : α) * q2 / 100 ≤
      (((l.insertionSort (· ≤ ·)).length - 1 : ℕ) : α) := by
    rw [hslen]
    calc ((l.length - 1 : ℕ) : α) * q2 / 100 ≤ ((l.length - 1 : ℕ) : α) * 100 / 100 := by
          gcongr
      _ = ((l.length - 1 : ℕ) : α) := by field_simp
  have key := interp_mono (l.insertionSort (· ≤ ·)) hs hsne hx hxy hy
  rw [percentileVal, percentileVal]
  exact key

lemma npPercentile_ok_inv {d : List α} {q t : α} (h : npPercentile d q = .ok t) :
    d ≠ [] ∧ 0 ≤ q ∧ q ≤ 100 ∧ t = percentileVal d q := by
  rw [npPercentile] at h
  by_cases h1 : d = []
  · rw [if_pos h1] at h
    exact absurd h (by simp)
  · rw [if_neg h1] at h
    by_cases h2 : q < 0 ∨ 100 < q
    · rw [if_pos h2] at h
      exact absurd h (by simp)
    · rw [if_neg h2] at h
      push_neg at h2
      exact ⟨h1, h2.1, h2.2, (Except.ok.inj h).symm⟩

lemma threshold_le_threshold (sq : α → α) (hsq : ∀ z : α, 0 ≤ sq z)
    (e1 e2 : String → List α) (m : String) (d : List α) {a1 a2 t1 t2 : α}
    (h12 : a1 ≤ a2)
    (h1 : calculate_breakpoint_threshold ⟨e1, m, a1⟩ sq d = .ok t1)
    (h2 : calculate_breakpoint_threshold ⟨e2, m, a2⟩ sq d = .ok t2) :
    t1 ≤ t2 := by
  rw [calculate_breakpoint_threshold] at h1 h2
  by_cases hp : m = "percentile"
  · subst hp
    rw [if_pos rfl] at h1 h2
    obtain ⟨hdne, ha0, _, ht1⟩ := npPercentile_ok_inv h1
    obtain ⟨_, _, hb100, ht2⟩ := npPercentile_ok_inv h2
    rw [ht1, ht2]
    exact percentileVal_mono d hdne ha0 h12 hb100
  · by_cases hsd : m = "standard_deviation"
    · subst hsd
      rw [if_neg hp, if_pos rfl] at h1 h2
      have hstd : (0 : α) ≤ npStd sq d := hsq _
      have hm := mul_le_mul_of_nonneg_right h12 hstd
      have he1 := Except.ok.inj h1
      have he2 := Except.ok.inj h2
      linarith
    · by_cases hiq : m = "interquartile"
      · subst hiq
        rw [if_neg hp, if_neg hsd, if_pos rfl] at h1 h2
        by_cases hdne : d = []
        · rw [hdne] at h1
          simp [npPercentile] at h1
        · have hc25 : ¬((25 : α) < 0 ∨ (100 : α) < 25) := by
            push_neg
            constructor <;> norm_num
          have hc75 : ¬((75 : α) < 0 ∨ (100 : α) < 75) := by
            push_neg
            constructor <;> norm_num
          have h25 : npPercentile d 25 = .ok (percentileVal d 25) := by
            rw [npPercentile]
            simp [hdne, hc25]
          have h75 : npPercentile d 75 = .ok (percentileVal d 75) := by
            rw [npPercentile]
            simp [hdne, hc75]
          simp only [h25, h75, Except.ok.injEq] at h1 h2
          have hq : 0 ≤ percentileVal d 75 - percentileVal d 25 :=
            sub_nonneg.mpr (percentileVal_mono d hdne (by norm_num) (by norm_num)
              (by norm_num))
          have hm := mul_le_mul_of_nonneg_right h12 hq
          linarith
      · rw [if_neg hp, if_neg hsd, if_neg hiq] at h1
        exact absurd h1 (by simp)

/-- C5: for a fixed threshold method, embedding driver and input text, and
amounts `a1 ≤ a2`, whenever both runs of `try_chunk` succeed, the run with
the larger amount produces at most as many chunks (the threshold is monotone
in the amount, so the set of breakpoints can only shrink).  `sq` is the
model of the square root inside `np.std`/`np.linalg.norm` and is assumed
nonnegative-valued, as a square root is. -/
theorem try_chunk_amount_monotone (e : String → List α) (m : String) (sq : α → α)
    (hsq : ∀ z : α, 0 ≤ sq z) (text : String) {a1 a2 : α} (h12 : a1 ≤ a2)
    {l1 l2 : List String}
    (h1 : try_chunk ⟨e, m, a1⟩ sq text = .ok l1)
    (h2 : try_chunk ⟨e, m, a2⟩ sq text = .ok l2) :
    l2.length ≤ l1.length := by
  have hdrv : ∀ ss : List (Sentence α),
      embed_sentences (α := α) ⟨e, m, a2⟩ ss = embed_sentences ⟨e, m, a1⟩ ss :=
    fun ss => rfl
  have hdeq : try_chunk_distances (α := α) ⟨e, m, a2⟩ sq text =
      try_chunk_distances ⟨e, m, a1⟩ sq text := by
    rw [try_chunk_distances, try_chunk_distances, hdrv]
  have hseq : try_chunk_final_sentences (α := α) ⟨e, m, a2⟩ sq text =
      try_chunk_final_sentences ⟨e, m, a1⟩ sq text := by
    rw [try_chunk_final_sentences, try_chunk_final_sentences, hdrv]
  rw [try_chunk_eq, combine_sentences_to_chunks] at h1 h2
  rw [hdeq, hseq] at h2
  set d := try_chunk_distances (α := α) ⟨e, m, a1⟩ sq text with hd
  set ss := try_chunk_final_sentences (α := α) ⟨e, m, a1⟩ sq text with hss
  cases hth1 : calculate_breakpoint_threshold ⟨e, m, a1⟩ sq d with
  | error err =>
    rw [hth1] at h1
    exact absurd h1 (by simp)
  | ok t1 =>
  cases hth2 : calculate_breakpoint_threshold ⟨e, m, a2⟩ sq d with
  | error err =>
    rw [hth2] at h2
    exact absurd h2 (by simp)
  | ok t2 =>
  rw [hth1] at h1
  rw [hth2] at h2
  have hl1 : l1 = chunkGroups ss (indicesAboveThreshold t1 d) 0 := (Except.ok.inj h1).symm
  have hl2 : l2 = chunkGroups ss (indicesAboveThreshold t2 d) 0 := (Except.ok.inj h2).symm
  have ht12 : t1 ≤ t2 := threshold_le_threshold sq hsq e e m d h12 hth1 hth2
  have hanti := length_indicesAboveThreshold_antitone d ht12
  by_cases hN : split_into_sentences text = []
  · have hss0 : ss.length = 0 := by
      rw [hss, length_try_chunk_final, hN]
      rfl
    have hssnil : ss = [] := List.length_eq_zero.mp hss0
    rw [hl1, hl2, hssnil, length_chunkGroups_nil, length_chunkGroups_nil]
    exact hanti
  · have hNpos : 0 < (split_into_sentences text).length := List.length_pos.mpr hN
    have hsslen : ss.length = (split_into_sentences text).length := by
      rw [hss]
      exact length_try_chunk_final _ _ _
    have hdlen : d.length = (split_into_sentences text).length - 1 := by
      rw [hd]
      exact length_try_chunk_distances _ _ _
    have hmem1 : ∀ i ∈ indicesAboveThreshold t1 d, i + 1 < ss.length := by
      intro i hi
      have := (mem_indicesAboveThreshold hi).1
      omega
    have hmem2 : ∀ i ∈ indicesAboveThreshold t2 d, i + 1 < ss.length := by
      intro i hi
      have := (mem_indicesAboveThreshold hi).1
      omega
    rw [hl1, hl2, length_chunkGroups ss _ 0 (by omega) hmem1,
      length_chunkGroups ss _ 0 (by omega) hmem2]
    omega

set_option maxRecDepth 400000 in
/-- Witness for `try_chunk_amount_monotone`: two concrete percentile runs
with amounts 90 and 95. -/
theorem try_chunk_amount_monotone_witness :
    ((∀ z : ℚ, 0 ≤ |z|) ∧ (90 : ℚ) ≤ 95 ∧
      try_chunk (⟨chunkerW.embedding_driver, "percentile", 90⟩ : SemanticChunker ℚ)
        (fun z => |z|) "Hello. World." = .ok ["Hello. World."] ∧
      try_chunk (⟨chunkerW.embedding_driver, "percentile", 95⟩ : SemanticChunker ℚ)
        (fun z => |z|) "Hello. World." = .ok ["Hello. World."]) ∧
    (["Hello. World."] : List String).length ≤ (["Hello. World."] : List String).length :=
  have hsq : ∀ z : ℚ, 0 ≤ |z| := fun z => abs_nonneg z
  have h12 : (90 : ℚ) ≤ 95 := by norm_num
  have h1 : try_chunk (⟨chunkerW.embedding_driver, "percentile", 90⟩ : SemanticChunker ℚ)
      (fun z => |z|) "Hello. World." = .ok ["Hello. World."] := by decide
  have h2 : try_chunk (⟨chunkerW.embedding_driver, "percentile", 95⟩ : SemanticChunker ℚ)
      (fun z => |z|) "Hello. World." = .ok ["Hello. World."] := by decide
  ⟨⟨hsq, h12, h1, h2⟩,
    try_chunk_amount_monotone chunkerW.embedding_driver "percentile" (fun z => |z|)
      hsq "Hello. World." h12 h1 h2⟩

/-! ## Helper lemmas: the splitter on punctuation-free, marker-free text -/

lemma scanSub_eq_self (m : List Char → Option (List Char × List Char)) :
    ∀ (fuel : ℕ) (l : List Char), (∀ s : List Char, s <:+ l → m s = none) →
      scanSub m fuel l = l := by
  intro fuel
  induction fuel with
  | zero => intro l _; rfl
  | succ fuel ih =>
    intro l hnone
    cases l with
    | nil => rfl
    | cons c cs =>
      have h0 : m (c :: cs) = none := hnone _ (List.suffix_refl _)
      simp only [scanSub, h0]
      rw [ih cs fun s hs => hnone s (hs.trans (List.suffix_cons c cs))]

lemma pySub_eq_self (m : List Char → Option (List Char × List Char)) (l : List Char)
    (h : ∀ s : List Char, s <:+ l → m s = none) : pySub m l = l :=
  scanSub_eq_self m l.length l h

lemma pyReplace_eq_self (pat rep l : List Char) (h : ¬ pat <:+: l) :
    pyReplace pat rep l = l := by
  rw [pyReplace]
  refine pySub_eq_self _ l fun s hs => ?_
  rw [if_neg]
  rintro ⟨-, hpre⟩
  rw [List.isPrefixOf_iff_prefix] at hpre
  exact h (hpre.isInfix.trans hs.isInfix)

lemma pyReplace_eq_self_of_char (pat rep l : List Char) (c : Char) (hc : c ∈ pat)
    (hl : c ∉ l) : pyReplace pat rep l = l :=
  pyReplace_eq_self pat rep l fun hinf => hl (hinf.subset hc)

lemma tryAlts_requires {alts : List (List Char × List Char)} {l : List Char}
    {r : List Char × List Char} (c : Char) (hc : ∀ pr ∈ alts, c ∈ pr.1)
    (h : tryAlts alts l = some r) : c ∈ l := by
  rw [tryAlts] at h
  obtain ⟨pr, hmem, hpr⟩ := List.exists_of_findSome?_eq_some h
  by_cases hp : pr.1.isPrefixOf l = true
  · rw [List.isPrefixOf_iff_prefix] at hp
    exact hp.subset (hc pr hmem)
  · rw [if_neg hp] at hpr
    exact absurd hpr (by simp)

lemma matchDigits_requires {l : List Char} {r : List Char × List Char}
    (h : matchDigits l = some r) : '.' ∈ l := by
  rw [matchDigits.eq_def] at h
  split at h <;> simp_all

lemma matchMultiDots_requires {l : List Char} {r : List Char × List Char}
    (h : matchMultiDots l = some r) : '.' ∈ l := by
  simp only [matchMultiDots] at h
  split_ifs at h with hk
  · cases hl : l.takeWhile (fun c => c = '.') with
    | nil => rw [hl] at hk; simp at hk
    | cons x xs =>
      have hx : x ∈ l.takeWhile (fun c => c = '.') := by
        rw [hl]
        exact List.mem_cons_self x xs
      have hxd : x = '.' := by simpa using List.mem_takeWhile_imp hx
      have hxl : x ∈ l := (List.takeWhile_prefix _).subset hx
      rwa [hxd] at hxl

lemma matchWsAlphaDot_requires {l : List Char} {r : List Char × List Char}
    (h : matchWsAlphaDot l = some r) : '.' ∈ l := by
  rw [matchWsAlphaDot.eq_def] at h
  split at h <;> simp_all

lemma matchAcronym_requires {l : List Char} {r : List Char × List Char}
    (h : matchAcronym l = some r) : '.' ∈ l := by
  rw [matchAcronym.eq_def] at h
  split at h <;> simp_all

lemma matchAcrStarter_requires {l : List Char} {r : List Char × List Char}
    (h : matchAcrStarter l = some r) : '.' ∈ l := by
  rw [matchAcrStarter.eq_def] at h
  cases hacr : matchAcronym l with
  | none => rw [hacr] at h; simp at h
  | some p => exact matchAcronym_requires hacr

lemma matchThreeAlpha_requires {l : List Char} {r : List Char × List Char}
    (h : matchThreeAlpha l = some r) : '.' ∈ l := by
  rw [matchThreeAlpha.eq_def] at h
  split at h <;> simp_all

lemma matchTwoAlpha_requires {l : List Char} {r : List Char × List Char}
    (h : matchTwoAlpha l = some r) : '.' ∈ l := by
  rw [matchTwoAlpha.eq_def] at h
  split at h <;> simp_all

lemma matchSuffixTok_drop {l : List Char} {p : List Char × List Char}
    (h : matchSuffixTok l = some p) : ∃ n, p.2 = l.drop n := by
  rw [matchSuffixTok] at h
  obtain ⟨w, hw, hif⟩ := List.exists_of_findSome?_eq_some h
  by_cases hp : w.isPrefixOf l = true
  · rw [if_pos hp] at hif
    exact ⟨w.length, by rw [← Option.some.inj hif]⟩
  · rw [if_neg hp] at hif
    exact absurd hif (by simp)

lemma matchSuffixDot_requires {l : List Char} {r : List Char × List Char}
    (h : matchSuffixDot l = some r) : '.' ∈ l := by
  rw [matchSuffixDot.eq_def] at h
  split at h
  · split at h
    · split at h
      · rename_i heq2
        obtain ⟨n, hn⟩ := matchSuffixTok_drop heq2
        apply List.mem_cons_of_mem
        apply List.drop_subset n _
        rw [← hn]
        exact List.mem_cons_self _ _
      · simp at h
    · simp at h
  · simp at h

lemma matchSuffixStarter_requires {l : List Char} {r : List Char × List Char}
    (h : matchSuffixStarter l = some r) : '.' ∈ l := by
  rw [matchSuffixStarter.eq_def] at h
  split at h
  · split at h
    · split at h
      · split at h
        · rename_i heq2 _ _ _ _
          obtain ⟨n, hn⟩ := matchSuffixTok_drop heq2
          apply List.mem_cons_of_mem
          apply List.drop_subset n _
          rw [← hn]
          exact List.mem_cons_self _ _
        · simp at h
      · simp at h
    · simp at h
  · simp at h

lemma matchSpaceAlphaDot_requires {l : List Char} {r : List Char × List Char}
    (h : matchSpaceAlphaDot l = some r) : '.' ∈ l := by
  rw [matchSpaceAlphaDot.eq_def] at h
  split at h <;> simp_all

lemma splitStopsAux_of_not_infix :
    ∀ (fuel : ℕ) (l : List Char), ¬ stopTok <:+: l → splitStopsAux fuel l = [l] := by
  intro fuel
  induction fuel with
  | zero => intro l _; rfl
  | succ fuel ih =>
    intro l hinf
    cases l with
    | nil => rfl
    | cons c cs =>
      have hpre : stopTok.isPrefixOf (c :: cs) = false := by
        rw [Bool.eq_false_iff]
        intro hp
        rw [List.isPrefixOf_iff_prefix] at hp
        exact hinf hp.isInfix
      simp only [splitStopsAux, hpre]
      rw [ih cs fun h => hinf (List.infix_cons h)]
      rfl

lemma splitStops_of_not_infix (l : List Char) (h : ¬ stopTok <:+: l) :
    splitStops l = [l] :=
  splitStopsAux_of_not_infix l.length l h

lemma dropWhile_idem (p : Char → Bool) (l : List Char) :
    (l.dropWhile p).dropWhile p = l.dropWhile p := by
  induction l with
  | nil => rfl
  | cons a l ih =>
    by_cases h : p a = true
    · rw [List.dropWhile_cons_of_pos h]
      exact ih
    · rw [List.dropWhile_cons_of_neg h, List.dropWhile_cons_of_neg h]

lemma dropWhile_eq_self_of_head (p : Char → Bool) (l : List Char)
    (h : ∀ hne : l ≠ [], p (l.head hne) = false) : l.dropWhile p = l := by
  cases l with
  | nil => rfl
  | cons a t =>
    have ha : p a = false := h (List.cons_ne_nil a t)
    exact List.dropWhile_cons_of_neg (by simp [ha])

lemma getLast_of_suffix {B Z : List Char} (h : B <:+ Z) (hB : B ≠ []) (hZ : Z ≠ []) :
    B.getLast hB = Z.getLast hZ := by
  obtain ⟨pre, rfl⟩ := h
  rw [List.getLast_append]
  simp [hB]

lemma pyStrip_idem (l : List Char) : pyStrip (pyStrip l) = pyStrip l := by
  have key : ∀ Z : List Char,
      (((Z.dropWhile pyIsSpace).reverse.dropWhile pyIsSpace).reverse).dropWhile pyIsSpace =
        ((Z.dropWhile pyIsSpace).reverse.dropWhile pyIsSpace).reverse := by
    intro Z
    by_cases hB : (Z.dropWhile pyIsSpace).reverse.dropWhile pyIsSpace = []
    · rw [hB]
      rfl
    · apply dropWhile_eq_self_of_head
      intro hne
      have hXrevne : (Z.dropWhile pyIsSpace).reverse ≠ [] := by
        intro hx
        apply hB
        rw [hx]
        rfl
      rw [List.head_reverse]
      rw [getLast_of_suffix (List.dropWhile_suffix pyIsSpace) hB hXrevne]
      rw [List.getLast_reverse]
      exact List.head_dropWhile_not pyIsSpace Z _
  rw [pyStrip, pyStrip, key l, List.reverse_reverse, dropWhile_idem]

lemma pyStrip_pad (x : List Char) :
    pyStrip (' ' :: x ++ [' ', ' ']) = pyStrip x := by
  rw [pyStrip, pyStrip]
  have hsp : pyIsSpace ' ' = true := rfl
  rw [show ((' ' :: x ++ [' ', ' '] : List Char).dropWhile pyIsSpace) =
    ((x ++ [' ', ' '] : List Char).dropWhile pyIsSpace) from
      List.dropWhile_cons_of_pos hsp]
  rw [List.dropWhile_append]
  by_cases hx : (x.dropWhile pyIsSpace).isEmpty = true
  · rw [if_pos hx]
    have h2 : ([' ', ' '] : List Char).dropWhile pyIsSpace = [] := rfl
    have hx' : x.dropWhile pyIsSpace = [] := List.isEmpty_iff.mp hx
    rw [h2, hx']
  · rw [if_neg hx]
    rw [List.reverse_append]
    have h3 : ([' ', ' '] : List Char).reverse ++ (x.dropWhile pyIsSpace).reverse =
        ' ' :: ' ' :: (x.dropWhile pyIsSpace).reverse := rfl
    rw [h3, List.dropWhile_cons_of_pos hsp, List.dropWhile_cons_of_pos hsp]

lemma pyStrip_ne_nil {x : List Char} (h : ∃ c ∈ x, pyIsSpace c = false) :
    pyStrip x ≠ [] := by
  obtain ⟨c, hcx, hc⟩ := h
  intro hnil
  rw [pyStrip, List.reverse_eq_nil_iff, List.dropWhile_eq_nil_iff] at hnil
  have hall : ∀ a ∈ x.dropWhile pyIsSpace, pyIsSpace a = true := by
    intro a ha
    exact hnil a (by rwa [List.mem_reverse])
  have hx := List.takeWhile_append_dropWhile pyIsSpace x
  rw [← hx] at hcx
  rcases List.mem_append.mp hcx with hmem | hmem
  · exact absurd (List.mem_takeWhile_imp hmem) (by rw [hc]; simp)
  · exact absurd (hall c hmem) (by rw [hc]; simp)

lemma infix_cons_elim {m : List Char} {a : Char} {l : List Char}
    (h : m <:+: a :: l) (ha : a ∉ m) : m <:+: l := by
  obtain ⟨s, t, hst⟩ := h
  cases s with
  | nil =>
    cases m with
    | nil => exact List.nil_infix
    | cons mh mt =>
      rw [List.nil_append, List.cons_append] at hst
      obtain ⟨h1, h2⟩ := List.cons.inj hst
      rw [← h1] at ha
      exact absurd (List.mem_cons_self mh mt) ha
  | cons sh st =>
    rw [List.cons_append, List.cons_append] at hst
    obtain ⟨h1, h2⟩ := List.cons.inj hst
    exact ⟨st, t, h2⟩

lemma infix_pad_elim {m x : List Char} (hsp : ' ' ∉ m)
    (h : m <:+: ' ' :: x ++ [' ', ' ']) : m <:+: x := by
  have h1 : m <:+: x ++ [' ', ' '] := infix_cons_elim h hsp
  have h2 : m.reverse <:+: (x ++ [' ', ' ']).reverse := List.reverse_infix.mpr h1
  rw [List.reverse_append] at h2
  have h3 : ([' ', ' '] : List Char).reverse ++ x.reverse =
      ' ' :: ' ' :: x.reverse := rfl
  rw [h3] at h2
  have hsp' : ' ' ∉ m.reverse := by rwa [List.mem_reverse]
  have h4 : m.reverse <:+: x.reverse := infix_cons_elim (infix_cons_elim h2 hsp') hsp'
  exact List.reverse_infix.mp h4

lemma infix_map_newline_elim {m x : List Char} (hsp : ' ' ∉ m)
    (h : m <:+: x.map fun c => if c = '\n' then ' ' else c) : m <:+: x := by
  obtain ⟨s, t, hst⟩ := h
  have hst' : x.map (fun c => if c = '\n' then ' ' else c) = s ++ (m ++ t) := by
    rw [← hst, List.append_assoc]
  obtain ⟨l1, l23, hx1, hm1, hm23⟩ := List.map_eq_append_iff.mp hst'
  obtain ⟨l2, l3, hx2, hm2, hm3⟩ := List.map_eq_append_iff.mp hm23
  have hmapid : List.map (fun c => if c = '\n' then ' ' else c) l2 = List.map id l2 := by
    refine List.map_congr_left ?_
    intro c hc
    by_cases hcn : c = '\n'
    · exfalso
      apply hsp
      rw [← hm2]
      exact List.mem_map.mpr ⟨c, hc, by rw [if_pos hcn]⟩
    · rw [if_neg hcn]
      rfl
  have hl2 : l2 = m := by
    rw [← hm2, hmapid, List.map_id]
  refine ⟨l1, l3, ?_⟩
  rw [hx1, hx2, hl2, List.append_assoc]

lemma dropTrailingEmptyPiece_subset (xs : List (List Char)) :
    dropTrailingEmptyPiece xs ⊆ xs := by
  rw [dropTrailingEmptyPiece]
  split
  · exact (List.dropLast_sublist xs).subset
  · exact List.Subset.refl xs

/-- C8 (amended): an input text containing none of `.`, `?`, `!`, not
containing the splitter's internal marker substrings `<stop>` and `<prd>`,
and containing at least one non-whitespace character, is returned as one
single sentence: the input with newlines replaced by spaces and stripped of
surrounding whitespace.  (As originally stated the claim fails: an input
containing `<stop>` is split at the marker, a whitespace-only input yields
an empty list, and newlines and surrounding whitespace are normalized away,
so the sentence is not verbatim "the entire text".) -/
theorem split_no_punctuation (text : String)
    (hdot : '.' ∉ text.toList) (hqm : '?' ∉ text.toList) (hbang : '!' ∉ text.toList)
    (hstop : ¬ stopTok <:+: text.toList) (hprd : ¬ prdTok <:+: text.toList)
    (hws : ∃ c ∈ text.toList, pyIsSpace c = false) :
    split_into_sentences text =
      [String.mk (pyStrip (text.toList.map fun c => if c = '\n' then ' ' else c))] := by
  simp only [split_into_sentences]
  set t1 := ((' ' :: text.toList ++ [' ', ' ']).map fun c => if c = '\n' then ' ' else c)
    with ht1
  have hmap : t1 = ' ' :: (text.toList.map fun c => if c = '\n' then ' ' else c) ++
      [' ', ' '] := by
    rw [ht1]
    simp
  have hchar : ∀ ch : Char, ch ≠ ' ' → ch ∉ text.toList → ch ∉ t1 := by
    intro ch hne hnotin
    rw [hmap]
    intro hmem
    rcases List.mem_cons.mp hmem with h | hmem2
    · exact hne h
    rcases List.mem_append.mp hmem2 with hmem3 | h
    · obtain ⟨c, hc, hfc⟩ := List.mem_map.mp hmem3
      by_cases hcn : c = '\n'
      · rw [if_pos hcn] at hfc
        exact hne hfc.symm
      · rw [if_neg hcn] at hfc
        exact hnotin (hfc ▸ hc)
    · rcases (by simpa using h : ch = ' ' ∨ ch = ' ') with h2 | h2 <;> exact hne h2
  have hdot1 : '.' ∉ t1 := hchar '.' (by decide) hdot
  have hqm1 : '?' ∉ t1 := hchar '?' (by decide) hqm
  have hbang1 : '!' ∉ t1 := hchar '!' (by decide) hbang
  have hstop1 : ¬ stopTok <:+: t1 := by
    rw [hmap]
    intro hinf
    exact hstop (infix_map_newline_elim (by decide) (infix_pad_elim (by decide) hinf))
  have hprd1 : ¬ prdTok <:+: t1 := by
    rw [hmap]
    intro hinf
    exact hprd (infix_map_newline_elim (by decide) (infix_pad_elim (by decide) hinf))
  have hscan : ∀ mm : List Char → Option (List Char × List Char),
      (∀ (s : List Char) (r : List Char × List Char), mm s = some r → '.' ∈ s) →
      pySub mm t1 = t1 := by
    intro mm hmm
    refine pySub_eq_self mm t1 fun s hs => ?_
    cases hms : mm s with
    | none => rfl
    | some r => exact absurd (hs.subset (hmm s r hms)) hdot1
  have e2 : pySub (tryAlts prefixesAlts) t1 = t1 :=
    hscan _ fun s r h => tryAlts_requires '.' (by decide) h
  have e3 : pySub (tryAlts websitesAlts) t1 = t1 :=
    hscan _ fun s r h => tryAlts_requires '.' (by decide) h
  have e4 : pySub matchDigits t1 = t1 := hscan _ fun s r h => matchDigits_requires h
  have e5 : pySub matchMultiDots t1 = t1 := hscan _ fun s r h => matchMultiDots_requires h
  have e6 : pyReplace "Ph.D.".toList "Ph<prd>D<prd>".toList t1 = t1 :=
    pyReplace_eq_self_of_char _ _ t1 '.' (by decide) hdot1
  have e7 : pySub matchWsAlphaDot t1 = t1 := hscan _ fun s r h => matchWsAlphaDot_requires h
  have e8 : pySub matchAcrStarter t1 = t1 := hscan _ fun s r h => matchAcrStarter_requires h
  have e9 : pySub matchThreeAlpha t1 = t1 := hscan _ fun s r h => matchThreeAlpha_requires h
  have e10 : pySub matchTwoAlpha t1 = t1 := hscan _ fun s r h => matchTwoAlpha_requires h
  have e11 : pySub matchSuffixStarter t1 = t1 :=
    hscan _ fun s r h => matchSuffixStarter_requires h
  have e12 : pySub matchSuffixDot t1 = t1 := hscan _ fun s r h => matchSuffixDot_requires h
  have e13 : pySub matchSpaceAlphaDot t1 = t1 :=
    hscan _ fun s r h => matchSpaceAlphaDot_requires h
  have e14 : pyReplace ".”".toList "”.".toList t1 = t1 :=
    pyReplace_eq_self_of_char _ _ t1 '.' (by decide) hdot1
  have e15 : pyReplace ".\"".toList "\".".toList t1 = t1 :=
    pyReplace_eq_self_of_char _ _ t1 '.' (by decide) hdot1
  have e16 : pyReplace "!\"".toList "\"!".toList t1 = t1 :=
    pyReplace_eq_self_of_char _ _ t1 '!' (by decide) hbang1
  have e17 : pyReplace "?\"".toList "\"?".toList t1 = t1 :=
    pyReplace_eq_self_of_char _ _ t1 '?' (by decide) hqm1
  have e18 : pyReplace ".".toList ".<stop>".toList t1 = t1 :=
    pyReplace_eq_self_of_char _ _ t1 '.' (by decide) hdot1
  have e19 : pyReplace "?".toList "?<stop>".toList t1 = t1 :=
    pyReplace_eq_self_of_char _ _ t1 '?' (by decide) hqm1
  have e20 : pyReplace "!".toList "!<stop>".toList t1 = t1 :=
    pyReplace_eq_self_of_char _ _ t1 '!' (by decide) hbang1
  have e21 : pyReplace prdTok ".".toList t1 = t1 := pyReplace_eq_self prdTok _ t1 hprd1
  rw [e2, e3, e4, e5, e6, e7, e8, e9, e10, e11, e12, e13, e14, e15, e16, e17,
    e18, e19, e20, e21, splitStops_of_not_infix t1 hstop1]
  have hne2 : pyStrip t1 ≠ [] := by
    rw [hmap, pyStrip_pad]
    apply pyStrip_ne_nil
    obtain ⟨c, hc, hcs⟩ := hws
    refine ⟨if c = '\n' then ' ' else c, List.mem_map.mpr ⟨c, hc, rfl⟩, ?_⟩
    have hcn : c ≠ '\n' := by
      intro hcn
      rw [hcn] at hcs
      exact absurd hcs (by decide)
    rw [if_neg hcn]
    exact hcs
  have hdt : dropTrailingEmptyPiece [pyStrip t1] = [pyStrip t1] := by
    rw [dropTrailingEmptyPiece]
    cases hx : pyStrip t1 with
    | nil => exact absurd hx hne2
    | cons a y => rfl
  rw [List.map_cons, List.map_nil, hdt, hmap, pyStrip_pad, List.map_cons, List.map_nil]

/-- C8 as stated is false: `"a<stop>b"` has no sentence-ending punctuation
yet splits in two; the empty input yields no sentence at all; and
`"a\nb"` comes back newline-normalized rather than verbatim. -/
theorem split_no_punctuation_counterexample :
    ('.' ∉ "a<stop>b".toList ∧ '?' ∉ "a<stop>b".toList ∧ '!' ∉ "a<stop>b".toList ∧
      split_into_sentences "a<stop>b" = ["a", "b"]) ∧
    split_into_sentences "" = [] ∧
    ('.' ∉ "a\nb".toList ∧ '?' ∉ "a\nb".toList ∧ '!' ∉ "a\nb".toList ∧
      split_into_sentences "a\nb" = ["a b"]) := by
  exact ⟨⟨by decide, by decide, by decide, by decide⟩, by decide,
    by decide, by decide, by decide, by decide⟩

/-- Witness for `split_no_punctuation` at a concrete punctuation-free input. -/
theorem split_no_punctuation_witness :
    ('.' ∉ "One two three".toList ∧ '?' ∉ "One two three".toList ∧
      '!' ∉ "One two three".toList ∧ ¬ stopTok <:+: "One two three".toList ∧
      ¬ prdTok <:+: "One two three".toList ∧
      (∃ c ∈ "One two three".toList, pyIsSpace c = false)) ∧
    split_into_sentences "One two three" =
      [String.mk (pyStrip ("One two three".toList.map fun c =>
        if c = '\n' then ' ' else c))] :=
  have h1 : '.' ∉ "One two three".toList := by decide
  have h2 : '?' ∉ "One two three".toList := by decide
  have h3 : '!' ∉ "One two three".toList := by decide
  have h4 : ¬ stopTok <:+: "One two three".toList := by decide
  have h5 : ¬ prdTok <:+: "One two three".toList := by decide
  have h6 : ∃ c ∈ "One two three".toList, pyIsSpace c = false := by decide
  ⟨⟨h1, h2, h3, h4, h5, h6⟩,
    split_no_punctuation "One two three" h1 h2 h3 h4 h5 h6⟩

/-- C9 (amended): every entry of the splitter's output is trimmed — equal to
its own strip.  (As originally stated the claim fails: the output sequence
can be empty and entries can be empty strings.) -/
theorem split_entries_trimmed (text : String) (x : String)
    (hx : x ∈ split_into_sentences text) : x.toList = pyStrip x.toList := by
  simp only [split_into_sentences] at hx
  obtain ⟨y, hy, rfl⟩ := List.mem_map.mp hx
  obtain ⟨z, hz, rfl⟩ := List.mem_map.mp (dropTrailingEmptyPiece_subset _ hy)
  show pyStrip z = pyStrip (String.mk (pyStrip z)).toList
  rw [show (String.mk (pyStrip z)).toList = pyStrip z from rfl, pyStrip_idem]

/-- C9 as stated is false: the empty input yields an empty sequence (not a
non-empty one), and the input `"?<stop>"` yields a sequence containing an
empty sentence string. -/
theorem split_entries_counterexample :
    split_into_sentences "" = [] ∧ "" ∈ split_into_sentences "?<stop>" := by
  exact ⟨by decide, by decide⟩

set_option maxRecDepth 400000 in
/-- Witness for `split_entries_trimmed` at a concrete input and entry. -/
theorem split_entries_trimmed_witness :
    "Hello." ∈ split_into_sentences "Hello." ∧
    "Hello.".toList = pyStrip "Hello.".toList :=
  have h : "Hello." ∈ split_into_sentences "Hello." := by decide
  ⟨h, split_entries_trimmed "Hello." "Hello." h⟩

end Griptape
